import Mathlib

/-!
# A verification model of the `debtreduction` simulation engine

This file is a shallow embedding, in Lean 4, of the debt-payoff simulation
engine of the `debtreduction` repository (`debtreduction/simulation.py`),
together with theorems about its behaviour.

Modelling conventions:

* Money is represented in integer cents (`Int`).  All monetary inputs of the
  engine are SQL `Numeric(12, 2)` values, i.e. exact multiples of a cent, so
  Python's `quantize` (round-half-up to two decimals) is the identity on them
  and is omitted; the only place a value can leave the cent lattice is the
  interest computation, which is modelled by `roundHalfUp` on exact rationals.
  (Python computes `Decimal(str(apr)) / Decimal("1200")` with a
  28-significant-digit context; the exact-rational idealization used here
  agrees with it at cent resolution away from representation noise.)
* APRs (Python `float`) are modelled as exact rationals.
* Python `dict`s keyed by debt id are modelled as insertion-ordered
  association lists (`PyDict`) with Python's semantics: inserting an existing
  key overwrites in place, a new key is appended.
* Python `str.lower()` is modelled by `String.toLower` (ASCII lowering).
* The per-month warning strings are modelled by the inductive type `Warning`;
  each constructor stands for one of the three message shapes produced by
  `run_simulation`.
-/

namespace DebtReduction

/-- `quantize` with `ROUND_HALF_UP` at cent resolution: rounds an exact
rational number of cents to an integer number of cents, halves away from
zero (models `Decimal.quantize(CENT, rounding=ROUND_HALF_UP)`). -/
def roundHalfUp (q : ℚ) : ℤ :=
  if 0 ≤ q then ⌊q + 1 / 2⌋ else -⌊-q + 1 / 2⌋

/-- Digits of a natural number, most significant first (`fuel`-driven). -/
def natChars : Nat → Nat → List Char → List Char
  | 0, _, acc => acc
  | fuel + 1, n, acc =>
    if n < 10 then Char.ofNat (48 + n) :: acc
    else natChars fuel (n / 10) (Char.ofNat (48 + n % 10) :: acc)

/-- Decimal string of a natural number. -/
def natStr (n : Nat) : String := ⟨natChars (n + 1) n []⟩

/-- Serialization of a cent amount as Python's `str(Decimal)` of a
two-decimal quantized value: sign, integer dollars, point, two digits. -/
def centsToStr (z : ℤ) : String :=
  let a := z.natAbs
  let cents := a % 100
  let frac := if cents < 10 then "0" ++ natStr cents else natStr cents
  (if z < 0 then "-" else "") ++ natStr (a / 100) ++ "." ++ frac

/-- Checks `\d+\.\d\x7b2\x7d`: one or more digits, a point, exactly two
digits. -/
def moneyBody (l : List Char) : Bool :=
  let ds := l.takeWhile Char.isDigit
  match l.dropWhile Char.isDigit with
  | ['.', a, b] => decide (ds ≠ []) && a.isDigit && b.isDigit
  | _ => false

/-- Checks the money-string shape `^-?\d+\.\d\x7b2\x7d$`: an optional minus
sign, one or more digits, a point, exactly two digits. -/
def isMoneyFormat (s : String) : Bool :=
  match s.data with
  | [] => false
  | c :: rest => if c = '-' then moneyBody rest else moneyBody (c :: rest)

/-- Calendar dates as year/month/day fields (models `datetime.date`;
Python guarantees validity, the Lean structure does not by itself). -/
structure Date where
  year : ℤ
  month : Nat
  day : Nat
deriving DecidableEq, Repr, Inhabited

/-- Gregorian leap-year rule (as used by `calendar.monthrange`). -/
def isLeapYear (y : ℤ) : Bool :=
  y % 4 == 0 && (y % 100 != 0 || y % 400 == 0)

/-- Number of days of month `m` of year `y` (`calendar.monthrange(y, m)[1]`). -/
def lastDayOfMonth (y : ℤ) (m : Nat) : Nat :=
  if m = 2 then (if isLeapYear y then 29 else 28)
  else if m = 4 ∨ m = 6 ∨ m = 9 ∨ m = 11 then 30
  else 31

/-- A date is within the representable calendar. -/
def Date.isValid (d : Date) : Prop :=
  1 ≤ d.month ∧ d.month ≤ 12 ∧ 1 ≤ d.day ∧ d.day ≤ lastDayOfMonth d.year d.month

instance (d : Date) : Decidable d.isValid := by
  unfold Date.isValid; infer_instance

/-- `add_months(start, months)`: the date `months` calendar months later,
day-of-month clamped to the length of the target month.  The engine only
calls it with a non-negative month count. -/
def addMonths (start : Date) (months : Nat) : Date :=
  let t := start.month - 1 + months
  let year := start.year + (t / 12 : Nat)
  let month := t % 12 + 1
  let day := min start.day (lastDayOfMonth year month)
  ⟨year, month, day⟩

/-! ## Python dictionaries as insertion-ordered association lists -/

/-- A Python `dict`: an association list, insertion ordered, keys unique by
construction through `dinsert`. -/
abbrev PyDict (α β : Type) := List (α × β)

/-- `d[k] = v`: overwrite in place if the key exists, append otherwise. -/
def dinsert [DecidableEq α] (k : α) (v : β) : PyDict α β → PyDict α β
  | [] => [(k, v)]
  | (k', v') :: rest =>
    if k' = k then (k, v) :: rest else (k', v') :: dinsert k v rest

/-- `d.get(k)`: first binding of `k`, if any. -/
def dfind [DecidableEq α] (d : PyDict α β) (k : α) : Option β :=
  match d with
  | [] => none
  | (k', v) :: rest => if k' = k then some v else dfind rest k

/-- `d.get(k, dflt)`. -/
def dget [DecidableEq α] (d : PyDict α β) (k : α) (dflt : β) : β :=
  (dfind d k).getD dflt

/-- `k in d`. -/
def dmem [DecidableEq α] (d : PyDict α β) (k : α) : Bool :=
  (dfind d k).isSome

/-- `d[k] = d.get(k, 0) + p` (the engine's payment accumulation step). -/
def daddTo [DecidableEq α] (d : PyDict α ℤ) (k : α) (p : ℤ) : PyDict α ℤ :=
  dinsert k (dget d k 0 + p) d

/-- Sum of the values of a dictionary (`sum(d.values())`). -/
def dvaluesSum (d : PyDict α ℤ) : ℤ := (d.map Prod.snd).sum

/-! ## Debt state and ordering policy -/

/-- `DebtState`: the engine's per-run mutable record for one debt. -/
structure DS where
  id : ℤ
  creditor : String
  balance : ℤ
  initialBalance : ℤ
  apr : ℚ
  minimumPayment : ℤ
  customPriority : Option ℤ
  position : ℤ
  interestPaid : ℤ := 0
  payoffMonthIndex : Option Nat := none
deriving DecidableEq, Repr

instance : Inhabited DS := ⟨⟨0, "", 0, 0, 0, 0, none, 0, 0, none⟩⟩

/-- Round-half-up (away from zero) of the fraction `a / b` for a positive
denominator `b`, in integer arithmetic: the computational form of
`roundHalfUp` (see `divRoundNearest_eq_roundHalfUp`). -/
def divRoundNearest (a : ℤ) (b : ℕ) : ℤ :=
  if 0 ≤ a then (2 * a + b) / ((2 * b : ℕ) : ℤ)
  else -((2 * -a + b) / ((2 * b : ℕ) : ℤ))

/-- One month of interest on a debt:
`quantize(balance * Decimal(str(apr)) / Decimal("1200"))` in cents, on the
debt's current balance — `roundHalfUp ((balance : ℚ) * apr / 1200)`, in
integer form (the two agree by `monthlyInterest_eq_roundHalfUp`). -/
def monthlyInterest (d : DS) : ℤ :=
  divRoundNearest (d.balance * d.apr.num) (1200 * d.apr.den)

/-- The four recognized payoff strategies. -/
inductive Strategy where
  | avalanche | snowball | entered | custom
deriving DecidableEq, Repr

/-- Recognizing a strategy name (any other name raises in `order_debts`). -/
def parseStrategy : String → Option Strategy
  | "avalanche" => some .avalanche
  | "snowball" => some .snowball
  | "entered" => some .entered
  | "custom" => some .custom
  | _ => none

/-- Code-point lexicographic `≤` on character lists (how Python compares
the lower-cased creditor strings). -/
def charsLeB : List Char → List Char → Bool
  | [], _ => true
  | _ :: _, [] => false
  | a :: as, b :: bs => if a < b then true else if b < a then false else charsLeB as bs

/-- A debt's creditor name lower-cased, as compared by the sort keys
(`debt.creditor.lower()`, ASCII lowering). -/
def nameKey (d : DS) : List Char := d.creditor.data.map Char.toLower

/-- A three-component sort key (the Python key tuples, padded where a
strategy uses fewer components). -/
structure SKey where
  k1 : ℚ
  k2 : ℚ
  k3 : List Char
deriving DecidableEq, Repr

/-- Lexicographic comparison of sort keys (Python tuple comparison,
non-strict). -/
def SKey.le (x y : SKey) : Prop :=
  x.k1 < y.k1 ∨
    (x.k1 = y.k1 ∧ (x.k2 < y.k2 ∨ (x.k2 = y.k2 ∧ charsLeB x.k3 y.k3 = true)))

instance : DecidableRel SKey.le := fun x y => by
  unfold SKey.le; infer_instance

/-- The sort key of a debt under a strategy: Python's `list.sort(key=...)`
tuples.  `entered` sorts by the position alone (constant padding). -/
def sortKey : Strategy → DS → SKey
  | .avalanche, d => ⟨-d.apr, (d.balance : ℚ), nameKey d⟩
  | .snowball, d => ⟨(d.balance : ℚ), -d.apr, nameKey d⟩
  | .entered, d => ⟨(d.position : ℚ), 0, []⟩
  | .custom, d => ⟨((d.customPriority.getD 9999 : ℤ) : ℚ), (d.balance : ℚ), nameKey d⟩

/-- The (total, transitive) preorder in which a strategy sorts. -/
def sortRel (s : Strategy) (a b : DS) : Prop := SKey.le (sortKey s a) (sortKey s b)

instance (s : Strategy) : DecidableRel (sortRel s) := fun a b => by
  unfold sortRel; infer_instance

/-- `order_debts` on a recognized strategy: Python's stable
`list.sort(key=...)`, modelled by the (stable) insertion sort on the key
order. -/
def orderDebtsT (s : Strategy) (l : List DS) : List DS :=
  l.insertionSort (sortRel s)

/-- `order_debts`: sorts for the four known strategies, raises
`SimulationError` ("Unknown strategy") otherwise. -/
inductive SimError where
  | insufficientBudget
  | exceededMaxDuration
  | unknownStrategy
deriving DecidableEq, Repr

def order_debts (strategy : String) (l : List DS) : Except SimError (List DS) :=
  match parseStrategy strategy with
  | none => .error .unknownStrategy
  | some s => .ok (orderDebtsT s l)

/-- The key order lifted to position-tagged debts (used to sort the loop's
iteration order while mutating the state list in place). -/
def pairRel (s : Strategy) (a b : Nat × DS) : Prop := sortRel s a.2 b.2

instance (s : Strategy) : DecidableRel (pairRel s) := fun a b => by
  unfold pairRel; infer_instance

/-- The positions of the debts in the order a strategy visits them:
the stable sort of the position-tagged state list, positions only. -/
def orderedIdx (s : Strategy) (l : List DS) : List Nat :=
  ((l.enum).insertionSort (pairRel s)).map Prod.fst

/-! ## The simulation loop -/

/-- The warnings `run_simulation` can attach to a month, one constructor per
message shape: the per-debt "Override for debt N capped at remaining
balance.", the "Overrides require more funds than available; need an
additional $X." message, and the "Overrides reduced payments; remaining
budget left unallocated." message. -/
inductive Warning where
  | overrideCapped (debtId : ℤ)
  | overridesExceedBudget (excess : ℤ)
  | overridesReduced
deriving DecidableEq, Repr

/-- One month's entry of the output schedule.  `date` carries the
`date_cursor` of the month (Python serializes it twice, as a "%b %Y" label
and as ISO text); money fields are integer cents, serialized by
`centsToStr`; `warnings` is the `paymentOverrideWarnings` list (the key is
absent in Python when the list is empty). -/
structure MonthRec where
  monthIndex : Nat
  date : Date
  interestAccrued : ℤ
  snowballAmount : ℤ
  additionalAmount : ℤ
  defaultPayments : PyDict ℤ ℤ
  payments : PyDict ℤ ℤ
  remainingBalances : PyDict ℤ ℤ
  warnings : List Warning
deriving DecidableEq, Repr, Inhabited

/-- The loop's running state: the `debt_states` list (fixed positions,
mutated fields), `freed_minimums`, `total_interest` and `paid_ids`. -/
structure SimState where
  debts : List DS
  freedMinimums : ℤ
  totalInterest : ℤ
  paidIds : List ℤ
deriving DecidableEq, Repr

/-- `any(d.balance > 0 for d in debt_states)`. -/
def anyPositive (debts : List DS) : Bool := debts.any fun d => 0 < d.balance

/-- Interest-accrual phase: walks the ordered positions; a positive-balance
debt accrues `monthlyInterest` on its balance and its cumulative interest,
and the month's and the run's interest totals grow with it. -/
def interestPhase : List Nat → List DS → ℤ → ℤ → List DS × ℤ × ℤ
  | [], debts, intAcc, totInt => (debts, intAcc, totInt)
  | i :: rest, debts, intAcc, totInt =>
    let d := debts.getD i default
    if d.balance ≤ 0 then interestPhase rest debts intAcc totInt
    else
      let interest := monthlyInterest d
      if interest ≠ 0 then
        interestPhase rest
          (debts.set i { d with balance := d.balance + interest,
                                interestPaid := d.interestPaid + interest })
          (intAcc + interest) (totInt + interest)
      else interestPhase rest debts intAcc totInt

/-- The `{debt.id: debt.balance for debt in debt_states}` comprehension. -/
def buildBalancesDict (debts : List DS) : PyDict ℤ ℤ :=
  debts.foldl (fun acc d => dinsert d.id d.balance acc) []

/-- Minimum-payment phase: each open debt pays `min(minimum, balance)`;
a minimum exceeding the balance leaves its unused part in the surplus
pool; the balance is clamped at zero. -/
def minPaymentPhase : List Nat → List DS → PyDict ℤ ℤ → ℤ → List DS × PyDict ℤ ℤ × ℤ
  | [], debts, payments, surplus => (debts, payments, surplus)
  | i :: rest, debts, payments, surplus =>
    let d := debts.getD i default
    if d.balance ≤ 0 then minPaymentPhase rest debts payments surplus
    else
      let payment := min d.minimumPayment d.balance
      let nb := d.balance - payment
      minPaymentPhase rest
        (debts.set i { d with balance := if nb ≤ 0 then 0 else nb })
        (daddTo payments d.id payment)
        (if payment < d.minimumPayment then surplus + (d.minimumPayment - payment)
         else surplus)

/-- Snowball phase: walks the ordered positions paying
`min(remaining, balance)` to each open debt; stops (Python `break`) as soon
as the remaining pool is no longer positive. -/
def snowballPhase : List Nat → List DS → PyDict ℤ ℤ → ℤ → List DS × PyDict ℤ ℤ × ℤ
  | [], debts, payments, remaining => (debts, payments, remaining)
  | i :: rest, debts, payments, remaining =>
    if remaining ≤ 0 then (debts, payments, remaining)
    else
      let d := debts.getD i default
      if d.balance ≤ 0 then snowballPhase rest debts payments remaining
      else
        let payment := min remaining d.balance
        if payment ≤ 0 then snowballPhase rest debts payments remaining
        else
          let nb := d.balance - payment
          snowballPhase rest
            (debts.set i { d with balance := if nb ≤ 0 then 0 else nb })
            (daddTo payments d.id payment)
            (remaining - payment)

/-- Payment-override phase: for each `(debt_id, amount)` registered for the
month whose debt appears in the computed-payment dictionary, the payment is
replaced by `min(post-interest balance, amount)`, with a capping warning
when the amount exceeds that ceiling. -/
def overridePhase (balancesAfterInterest : PyDict ℤ ℤ) :
    List (ℤ × ℤ) → PyDict ℤ ℤ → List Warning → PyDict ℤ ℤ × List Warning
  | [], finalPayments, warnings => (finalPayments, warnings)
  | (debtId, amt) :: rest, finalPayments, warnings =>
    if dmem finalPayments debtId then
      overridePhase balancesAfterInterest rest
        (dinsert debtId (min (dget balancesAfterInterest debtId 0) amt) finalPayments)
        (if dget balancesAfterInterest debtId 0 < amt then
          warnings ++ [.overrideCapped debtId]
        else warnings)
    else overridePhase balancesAfterInterest rest finalPayments warnings

/-- Settlement: every debt's balance is reset to its post-interest value
minus its final payment, clamped at zero; a debt newly at zero is marked
paid with this month's index and frees its minimum payment. -/
def settlePhase (monthIndex : Nat) (balancesAfterInterest paymentsFinal : PyDict ℤ ℤ) :
    List Nat → List DS → List ℤ → ℤ → List DS × List ℤ × ℤ
  | [], debts, paidIds, newlyFreed => (debts, paidIds, newlyFreed)
  | i :: rest, debts, paidIds, newlyFreed =>
    let d := debts.getD i default
    let bal := dget balancesAfterInterest d.id 0 - dget paymentsFinal d.id 0
    if bal ≤ 0 then
      if d.id ∈ paidIds then
        settlePhase monthIndex balancesAfterInterest paymentsFinal rest
          (debts.set i { d with balance := 0 }) paidIds newlyFreed
      else
        settlePhase monthIndex balancesAfterInterest paymentsFinal rest
          (debts.set i { d with balance := 0, payoffMonthIndex := some monthIndex })
          (paidIds ++ [d.id]) (newlyFreed + d.minimumPayment)
    else
      settlePhase monthIndex balancesAfterInterest paymentsFinal rest
        (debts.set i { d with balance := bal }) paidIds newlyFreed

/-- The date recorded for a month: `date_cursor` starts as the settings'
balance date and is recomputed as `add_months(balance_date, month_index - 1)`
at the end of every iteration. -/
def dateFor (balanceDate : Date) (monthIndex : Nat) : Date :=
  if monthIndex = 1 then balanceDate else addMonths balanceDate (monthIndex - 1)

/-- The `ordered_states` iteration order of the month. -/
def monthIdxs (strat : Strategy) (st : SimState) : List Nat :=
  orderedIdx strat st.debts

/-- The zero-initialized `payments_this_month` dictionary. -/
def monthPayments0 (st : SimState) : PyDict ℤ ℤ :=
  st.debts.foldl (fun acc d => dinsert d.id 0 acc) []

/-- The interest-accrual phase of the month. -/
def monthInterest (strat : Strategy) (st : SimState) : List DS × ℤ × ℤ :=
  interestPhase (monthIdxs strat st) st.debts 0 st.totalInterest

/-- The `balances_after_interest` dictionary of the month. -/
def monthBAI (strat : Strategy) (st : SimState) : PyDict ℤ ℤ :=
  buildBalancesDict (monthInterest strat st).1

/-- The month's `available_pool` (recorded as `snowballAmount`). -/
def monthPool (schedMap : PyDict Nat ℤ) (initialSnowball : ℤ) (monthIndex : Nat)
    (st : SimState) : ℤ :=
  initialSnowball + st.freedMinimums + dget schedMap monthIndex 0

/-- The minimum-payment phase of the month. -/
def monthMin (strat : Strategy) (st : SimState) : List DS × PyDict ℤ ℤ × ℤ :=
  minPaymentPhase (monthIdxs strat st) (monthInterest strat st).1
    (monthPayments0 st) 0

/-- The snowball phase of the month (its payments dictionary is
`default_payments`). -/
def monthSnow (strat : Strategy) (schedMap : PyDict Nat ℤ) (initialSnowball : ℤ)
    (monthIndex : Nat) (st : SimState) : List DS × PyDict ℤ ℤ × ℤ :=
  snowballPhase (monthIdxs strat st) (monthMin strat st).1
    (monthMin strat st).2.1
    (monthPool schedMap initialSnowball monthIndex st + (monthMin strat st).2.2)

/-- The payment-override phase of the month. -/
def monthOverride (strat : Strategy) (schedMap : PyDict Nat ℤ)
    (povMap : PyDict Nat (PyDict ℤ ℤ)) (initialSnowball : ℤ) (monthIndex : Nat)
    (st : SimState) : PyDict ℤ ℤ × List Warning :=
  overridePhase (monthBAI strat st) (dget povMap monthIndex [])
    (monthSnow strat schedMap initialSnowball monthIndex st).2.1 []

/-- The month's warnings: the override phase's, plus the comparison of
total final to total default payments. -/
def monthWarnings (strat : Strategy) (schedMap : PyDict Nat ℤ)
    (povMap : PyDict Nat (PyDict ℤ ℤ)) (initialSnowball : ℤ) (monthIndex : Nat)
    (st : SimState) : List Warning :=
  let totalDefault :=
    dvaluesSum (monthSnow strat schedMap initialSnowball monthIndex st).2.1
  let totalFinal :=
    dvaluesSum (monthOverride strat schedMap povMap initialSnowball monthIndex st).1
  if totalDefault < totalFinal then
    (monthOverride strat schedMap povMap initialSnowball monthIndex st).2 ++
      [.overridesExceedBudget (totalFinal - totalDefault)]
  else if totalFinal < totalDefault then
    (monthOverride strat schedMap povMap initialSnowball monthIndex st).2 ++
      [.overridesReduced]
  else (monthOverride strat schedMap povMap initialSnowball monthIndex st).2

/-- The rebuilt final `payments_this_month` dictionary of the month. -/
def monthPayFinal (strat : Strategy) (schedMap : PyDict Nat ℤ)
    (povMap : PyDict Nat (PyDict ℤ ℤ)) (initialSnowball : ℤ) (monthIndex : Nat)
    (st : SimState) : PyDict ℤ ℤ :=
  (monthSnow strat schedMap initialSnowball monthIndex st).1.foldl
    (fun acc d =>
      dinsert d.id
        (dget (monthOverride strat schedMap povMap initialSnowball monthIndex st).1
          d.id 0)
        acc)
    []

/-- The settlement phase of the month. -/
def monthSettle (strat : Strategy) (schedMap : PyDict Nat ℤ)
    (povMap : PyDict Nat (PyDict ℤ ℤ)) (initialSnowball : ℤ) (monthIndex : Nat)
    (st : SimState) : List DS × List ℤ × ℤ :=
  settlePhase monthIndex (monthBAI strat st)
    (monthPayFinal strat schedMap povMap initialSnowball monthIndex st)
    (List.range (monthSnow strat schedMap initialSnowball monthIndex st).1.length)
    (monthSnow strat schedMap initialSnowball monthIndex st).1 st.paidIds 0

/-- One iteration of the simulation loop (strategy already recognized):
ordering, interest, pools, minimum payments, snowball, overrides, warnings,
settlement, and the month's record. -/
def stepMonthT (strat : Strategy) (schedMap : PyDict Nat ℤ)
    (povMap : PyDict Nat (PyDict ℤ ℤ)) (initialSnowball : ℤ) (balanceDate : Date)
    (monthIndex : Nat) (st : SimState) : MonthRec × SimState :=
  ({ monthIndex := monthIndex, date := dateFor balanceDate monthIndex,
     interestAccrued := (monthInterest strat st).2.1,
     snowballAmount := monthPool schedMap initialSnowball monthIndex st,
     additionalAmount := dget schedMap monthIndex 0,
     defaultPayments := (monthSnow strat schedMap initialSnowball monthIndex st).2.1,
     payments := monthPayFinal strat schedMap povMap initialSnowball monthIndex st,
     remainingBalances := buildBalancesDict
       (monthSettle strat schedMap povMap initialSnowball monthIndex st).1,
     warnings := monthWarnings strat schedMap povMap initialSnowball monthIndex st },
   { debts := (monthSettle strat schedMap povMap initialSnowball monthIndex st).1,
     freedMinimums := st.freedMinimums +
       (monthSettle strat schedMap povMap initialSnowball monthIndex st).2.2,
     totalInterest := (monthInterest strat st).2.2,
     paidIds := (monthSettle strat schedMap povMap initialSnowball monthIndex st).2.1 })

/-- The state after `k` further simulated months, the next month carrying
index `monthIndex` (pure iteration of `stepMonthT`). -/
def statesFrom (strat : Strategy) (schedMap : PyDict Nat ℤ)
    (povMap : PyDict Nat (PyDict ℤ ℤ)) (initialSnowball : ℤ) (balanceDate : Date) :
    Nat → Nat → SimState → SimState
  | _, 0, st => st
  | monthIndex, k + 1, st =>
    statesFrom strat schedMap povMap initialSnowball balanceDate (monthIndex + 1) k
      (stepMonthT strat schedMap povMap initialSnowball balanceDate monthIndex st).2

/-- The `while any(balance > 0)` loop.  After each simulated month the
month counter advances, and crossing 600 aborts with the max-duration
error (Python raises this even when that month paid everything off).  The
fuel argument is 600 at entry; the fuel-exhausted base case repeats the
iteration ceiling's error and is unreachable from `runSimulation`. -/
def simLoop (strat : Strategy) (schedMap : PyDict Nat ℤ)
    (povMap : PyDict Nat (PyDict ℤ ℤ)) (initialSnowball : ℤ) (balanceDate : Date) :
    Nat → Nat → SimState → Except SimError (List MonthRec × SimState)
  | 0, _, st =>
    if anyPositive st.debts then .error .exceededMaxDuration else .ok ([], st)
  | fuel + 1, monthIndex, st =>
    if anyPositive st.debts then
      let step := stepMonthT strat schedMap povMap initialSnowball balanceDate monthIndex st
      if 600 < monthIndex + 1 then .error .exceededMaxDuration
      else
        match simLoop strat schedMap povMap initialSnowball balanceDate fuel
            (monthIndex + 1) step.2 with
        | .error e => .error e
        | .ok (recs, stF) => .ok (step.1 :: recs, stF)
    else .ok ([], st)

/-! ## Inputs, outputs, and `run_simulation` -/

/-- The settings row consumed by the engine. -/
structure Setting where
  balanceDate : Date
  monthlyBudget : ℤ
  strategy : String
deriving Repr

/-- A debt as the engine receives it (`models.Debt`: balances and minimum
payments are `Numeric(12, 2)` columns, i.e. cent amounts). -/
structure Debt where
  id : ℤ
  creditor : String
  balance : ℤ
  apr : ℚ
  minimumPayment : ℤ
  customPriority : Option ℤ
  position : ℤ
deriving Repr

/-- A schedule override row: extra pool money for one month. -/
structure ScheduleOverride where
  monthIndex : Nat
  additionalAmount : ℤ
deriving Repr

/-- A payment override row: a fixed payment for one (month, debt) pair.
The free-text note is pass-through and unused by the algorithm. -/
structure PaymentOverride where
  monthIndex : Nat
  debtId : ℤ
  amount : ℤ
  note : Option String := none
deriving Repr

/-- A per-debt summary of the final state.  `payoffMonth` models the
`payoffMonthLabel` (Python serializes the date as "%b %Y"). -/
structure DebtSummary where
  id : ℤ
  creditor : String
  initialBalance : ℤ
  interestPaid : ℤ
  monthsToPayoff : Nat
  payoffMonth : Option Date
deriving DecidableEq, Repr

instance : Inhabited DebtSummary := ⟨⟨0, "", 0, 0, 0, none⟩⟩

/-- Aggregate totals.  Python additionally emits `minimumMonthlyPayment`,
a verbatim duplicate of `minPaymentsSum` (absent from the empty-input
result); the duplicate field is not modelled. -/
structure Totals where
  totalInterest : ℤ
  totalMonths : Nat
  minPaymentsSum : ℤ
  initialSnowball : ℤ
deriving DecidableEq, Repr

/-- A successful simulation result. -/
structure SimResult where
  months : List MonthRec
  debts : List DebtSummary
  totals : Totals
deriving DecidableEq, Repr

instance : Inhabited SimResult :=
  ⟨{ months := [], debts := [],
     totals := { totalInterest := 0, totalMonths := 0, minPaymentsSum := 0,
                 initialSnowball := 0 } }⟩

/-- Fresh `DebtState`s from the input debts. -/
def initialStates (debts : List Debt) : List DS :=
  debts.map fun d =>
    { id := d.id, creditor := d.creditor, balance := d.balance,
      initialBalance := d.balance, apr := d.apr,
      minimumPayment := d.minimumPayment, customPriority := d.customPriority,
      position := d.position, interestPaid := 0, payoffMonthIndex := none }

/-- The `schedule_overrides_map` comprehension. -/
def buildSchedMap (so : List ScheduleOverride) : PyDict Nat ℤ :=
  so.foldl (fun acc o => dinsert o.monthIndex o.additionalAmount acc) []

/-- The `payment_override_map` build: a negative (quantized) amount is
skipped, otherwise `map.setdefault(month, dict())[debt_id] = amount`. -/
def buildPovMap (po : List PaymentOverride) : PyDict Nat (PyDict ℤ ℤ) :=
  po.foldl
    (fun acc o =>
      if o.amount < 0 then acc
      else dinsert o.monthIndex (dinsert o.debtId o.amount (dget acc o.monthIndex [])) acc)
    []

/-- The post-loop assembly of `run_simulation`'s result: per-debt summaries
in the initial strategy order and the aggregate totals. -/
def assembleResult (settings : Setting) (strat : Strategy) (debtStates : List DS)
    (minPaymentSum : ℤ) (months : List MonthRec) (stF : SimState) : SimResult :=
  let totalMonths := months.length
  let idToState := stF.debts.foldl (fun acc d => dinsert d.id d acc) ([] : PyDict ℤ DS)
  let summaries := ((orderDebtsT strat debtStates).map DS.id).map fun debtId =>
    let d := dget idToState debtId default
    { id := d.id, creditor := d.creditor,
      initialBalance := d.initialBalance, interestPaid := d.interestPaid,
      monthsToPayoff := d.payoffMonthIndex.getD totalMonths,
      payoffMonth := d.payoffMonthIndex.map fun m =>
        addMonths settings.balanceDate (m - 1) : DebtSummary }
  { months := months, debts := summaries,
    totals := { totalInterest := stF.totalInterest,
                totalMonths := totalMonths,
                minPaymentsSum := minPaymentSum,
                initialSnowball := max (settings.monthlyBudget - minPaymentSum) 0 } }

/-- `run_simulation`. -/
def runSimulation (settings : Setting) (debts : List Debt)
    (scheduleOverrides : List ScheduleOverride)
    (paymentOverrides : List PaymentOverride) : Except SimError SimResult :=
  let debtStates := initialStates debts
  if debtStates.isEmpty then .ok default
  else
    let minPaymentSum := (debtStates.map DS.minimumPayment).sum
    if settings.monthlyBudget < minPaymentSum then .error .insufficientBudget
    else
      match parseStrategy settings.strategy with
      | none => .error .unknownStrategy
      | some strat =>
        match simLoop strat (buildSchedMap scheduleOverrides)
            (buildPovMap paymentOverrides)
            (max (settings.monthlyBudget - minPaymentSum) 0) settings.balanceDate
            600 1 ⟨debtStates, 0, 0, []⟩ with
        | .error e => .error e
        | .ok (months, stF) =>
          .ok (assembleResult settings strat debtStates minPaymentSum months stF)

/-! ## Derived predicates used by the specification claims -/

/-- The month's interest accrued on a balance `b` at annual rate `apr`:
zero for a closed (non-positive) balance, `monthlyInterest` otherwise. -/
def interestOn (b : ℤ) (apr : ℚ) : ℤ :=
  if 0 < b then divRoundNearest (b * apr.num) (1200 * apr.den) else 0

/-- The avalanche order as the specification words it: APR descending,
ties by current balance ascending, final ties by creditor name
case-insensitive ascending. -/
def specAvalancheLe (a b : DS) : Prop :=
  b.apr < a.apr ∨
    (b.apr = a.apr ∧
      (a.balance < b.balance ∨
        (a.balance = b.balance ∧ charsLeB (nameKey a) (nameKey b) = true)))

/-- How one month's record follows from the previous one, per debt: the
new recorded balance is the old one plus its interest minus the month's
final payment, clamped at zero. -/
def MonthRel (debts : List Debt) (rec rec' : MonthRec) : Prop :=
  ∀ d ∈ debts,
    dget rec'.remainingBalances d.id 0 =
      max 0 (dget rec.remainingBalances d.id 0
             + interestOn (dget rec.remainingBalances d.id 0) d.apr
             - dget rec'.payments d.id 0)

/-- The simulation's starting state for an input debt list. -/
def initialSimState (debts : List Debt) : SimState := ⟨initialStates debts, 0, 0, []⟩

/-- The state after `k` simulated months for the given inputs (strategy
already recognized). -/
def simStatesAfter (settings : Setting) (debts : List Debt)
    (scheduleOverrides : List ScheduleOverride)
    (paymentOverrides : List PaymentOverride) (strat : Strategy) (k : Nat) : SimState :=
  statesFrom strat (buildSchedMap scheduleOverrides) (buildPovMap paymentOverrides)
    (max (settings.monthlyBudget - ((initialStates debts).map DS.minimumPayment).sum) 0)
    settings.balanceDate 1 k (initialSimState debts)

/-- Every money amount (in cents) appearing in a result: the month records'
interest, pool, override-addition and the three per-debt dictionaries, the
per-debt summary amounts, and the totals. -/
def moneyCents (r : SimResult) : List ℤ :=
  (r.months.flatMap fun m =>
    [m.interestAccrued, m.snowballAmount, m.additionalAmount] ++
      m.defaultPayments.map Prod.snd ++ m.payments.map Prod.snd ++
      m.remainingBalances.map Prod.snd) ++
  (r.debts.flatMap fun d => [d.initialBalance, d.interestPaid]) ++
  [r.totals.totalInterest, r.totals.minPaymentsSum, r.totals.initialSnowball]

/-- The money fields of a result as the serialized strings. -/
def moneyStrings (r : SimResult) : List String := (moneyCents r).map centsToStr

/-! ## Helper accessors and concrete scenarios -/

/-- The result of a successful run (junk default on error). -/
def resultOf (e : Except SimError SimResult) : SimResult := e.toOption.getD default

/-- The record of month `m` (1-based) of a result. -/
def monthAt (r : SimResult) (m : Nat) : MonthRec := r.months.getD (m - 1) default

/-- The hand-checked avalanche scenario's settings: budget 200.00, balance
date 2024-01-01, avalanche. -/
def settingsHand : Setting := ⟨⟨2024, 1, 1⟩, 20000, "avalanche"⟩

/-- The hand-checked avalanche scenario's debts: Loan A 100.00 at 12% with
minimum 50.00, Loan B 200.00 at 6% with minimum 25.00. -/
def debtsHand : List Debt :=
  [⟨1, "Loan A", 10000, 12, 5000, none, 0⟩,
   ⟨2, "Loan B", 20000, 6, 2500, none, 1⟩]

/-- The hand-checked scenario's run. -/
def handResult : SimResult := resultOf (runSimulation settingsHand debtsHand [] [])

/-- A budget of 1.00 against a single zero-interest debt of 600.00 with
minimum payment 1.00: payoff takes exactly 600 simulated months. -/
def settings600 : Setting := ⟨⟨2024, 1, 1⟩, 100, "avalanche"⟩

/-- The single 600-month debt. -/
def debts600 : List Debt := [⟨1, "Loan", 60000, 0, 100, none, 0⟩]

/-- The running debt state of the 600-month scenario at balance `b`. -/
def debt600State (b : ℤ) : DS := ⟨1, "Loan", b, 60000, 0, 100, none, 0, 0, none⟩

/-- The spec's insufficient-budget scenario: budget 50.00, a single debt
with minimum payment 60.00. -/
def settingsLow : Setting := ⟨⟨2024, 1, 1⟩, 5000, "snowball"⟩

/-- The single debt of the insufficient-budget scenario. -/
def debtsLow : List Debt := [⟨1, "Loan", 30000, 10, 6000, none, 0⟩]

/-- A scenario whose recorded balances grow: debt 2 has minimum payment
0.00 and 12% APR while the whole budget (50.00) services debt 1. -/
def settingsGrow : Setting := ⟨⟨2024, 1, 1⟩, 5000, "avalanche"⟩

/-- The debts of the growing-balance scenario. -/
def debtsGrow : List Debt :=
  [⟨1, "A", 10000, 0, 5000, none, 0⟩, ⟨2, "B", 10000, 12, 0, none, 1⟩]

/-- The growing-balance scenario's run (it succeeds after 5 months). -/
def growResult : SimResult := resultOf (runSimulation settingsGrow debtsGrow [] [])

/-- A run starting on 2024-01-31, long enough to cross February. -/
def settingsJan : Setting := ⟨⟨2024, 1, 31⟩, 5000, "avalanche"⟩

/-- The single five-month debt of the month-end date scenario. -/
def debtsJan : List Debt := [⟨1, "A", 25000, 0, 5000, none, 0⟩]

/-- The month-end date scenario's run. -/
def janResult : SimResult := resultOf (runSimulation settingsJan debtsJan [] [])

/-- The hand-checked scenario with a month-1 override of 150.00 on debt 1
(whose post-interest balance is 101.00). -/
def capOverride : PaymentOverride := ⟨1, 1, 15000, none⟩

/-- A negative payment override (amount -1.00). -/
def negOverride : PaymentOverride := ⟨1, 1, -100, none⟩

/-! ## Claims -/

/-- C1: the hand-checked avalanche scenario (budget 200.00, balance date
2024-01-01, Loan A 100.00/12%/min 50.00, Loan B 200.00/6%/min 25.00)
succeeds with totals totalInterest "2.51", totalMonths 2, minPaymentsSum
"75.00", initialSnowball "125.00"; month 1 pays A "101.00" and B "99.00"
leaving balances "0.00" and "102.00"; month 2 pays A "0.00" and B "102.51". -/
theorem avalanche_hand_scenario :
    (runSimulation settingsHand debtsHand [] []).isOk = true ∧
    centsToStr handResult.totals.totalInterest = "2.51" ∧
    handResult.totals.totalMonths = 2 ∧
    centsToStr handResult.totals.minPaymentsSum = "75.00" ∧
    centsToStr handResult.totals.initialSnowball = "125.00" ∧
    centsToStr (dget (monthAt handResult 1).payments 1 0) = "101.00" ∧
    centsToStr (dget (monthAt handResult 1).payments 2 0) = "99.00" ∧
    centsToStr (dget (monthAt handResult 1).remainingBalances 1 0) = "0.00" ∧
    centsToStr (dget (monthAt handResult 1).remainingBalances 2 0) = "102.00" ∧
    centsToStr (dget (monthAt handResult 2).payments 1 0) = "0.00" ∧
    centsToStr (dget (monthAt handResult 2).payments 2 0) = "102.51" := by
  decide

/-! ## Dictionary lemmas -/

theorem dfind_dinsert_self [DecidableEq α] (k : α) (v : β) (d : PyDict α β) :
    dfind (dinsert k v d) k = some v := by
  induction d with
  | nil => simp [dinsert, dfind]
  | cons p rest ih =>
    obtain ⟨k', v'⟩ := p
    by_cases h : k' = k
    · simp [dinsert, dfind, h]
    · simp [dinsert, dfind, h, ih]

theorem dfind_dinsert_ne [DecidableEq α] {k k' : α} (v : β) (d : PyDict α β)
    (h : k' ≠ k) : dfind (dinsert k v d) k' = dfind d k' := by
  have h' : ¬k = k' := fun hh => h hh.symm
  induction d with
  | nil => simp [dinsert, dfind, h']
  | cons p rest ih =>
    obtain ⟨k'', v''⟩ := p
    by_cases h2 : k'' = k
    · subst h2
      simp [dinsert, dfind, h']
    · simp [dinsert, dfind, h2, ih]

theorem dget_dinsert_self [DecidableEq α] (k : α) (v : β) (d : PyDict α β)
    (dflt : β) : dget (dinsert k v d) k dflt = v := by
  simp [dget, dfind_dinsert_self]

theorem dget_dinsert_ne [DecidableEq α] {k k' : α} (v : β) (d : PyDict α β)
    (dflt : β) (h : k' ≠ k) : dget (dinsert k v d) k' dflt = dget d k' dflt := by
  simp [dget, dfind_dinsert_ne v d h]

theorem dvaluesSum_daddTo [DecidableEq α] (d : PyDict α ℤ) (k : α) (p : ℤ) :
    dvaluesSum (daddTo d k p) = dvaluesSum d + p := by
  induction d with
  | nil => simp [daddTo, dinsert, dget, dfind, dvaluesSum]
  | cons q rest ih =>
    obtain ⟨k', v'⟩ := q
    by_cases h : k' = k
    · subst h
      simp [daddTo, dinsert, dget, dfind, dvaluesSum]
      ring
    · have : dget ((k', v') :: rest) k 0 = dget rest k 0 := by
        simp [dget, dfind, h]
      simp only [daddTo, dinsert, if_neg h, this, dvaluesSum, List.map_cons,
        List.sum_cons] at *
      omega

theorem dmem_dinsert [DecidableEq α] (k k' : α) (v : β) (d : PyDict α β) :
    dmem (dinsert k v d) k' = (decide (k' = k) || dmem d k') := by
  by_cases h : k' = k
  · subst h
    simp [dmem, dfind_dinsert_self]
  · simp [dmem, dfind_dinsert_ne v d h, h]

theorem dmem_daddTo [DecidableEq α] (d : PyDict α ℤ) (k k' : α) (p : ℤ) :
    dmem (daddTo d k p) k' = (decide (k' = k) || dmem d k') := by
  simp [daddTo, dmem_dinsert]

/-- Inserting a fresh key appends it. -/
theorem dinsert_of_not_mem [DecidableEq α] {k : α} (v : β) {d : PyDict α β}
    (h : dmem d k = false) : dinsert k v d = d ++ [(k, v)] := by
  induction d with
  | nil => simp [dinsert]
  | cons p rest ih =>
    obtain ⟨k', v'⟩ := p
    by_cases h2 : k' = k
    · subst h2
      simp [dmem, dfind] at h
    · simp only [dmem, dfind, h2, if_neg h2] at h ⊢
      simp [dinsert, h2, ih h]

/-! ## C10: negative payment overrides are skipped -/

/-- C10: a payment override with a negative quantized amount is skipped
when the override map is built, so for every input it never alters any
debt's payment in any month and produces no warning — exactly as if it had
not been supplied. -/
theorem negative_override_skipped (settings : Setting) (debts : List Debt)
    (so : List ScheduleOverride) (po₁ po₂ : List PaymentOverride)
    (o : PaymentOverride) (hneg : o.amount < 0) :
    runSimulation settings debts so (po₁ ++ o :: po₂) =
      runSimulation settings debts so (po₁ ++ po₂) := by
  have hmap : buildPovMap (po₁ ++ o :: po₂) = buildPovMap (po₁ ++ po₂) := by
    unfold buildPovMap
    rw [List.foldl_append, List.foldl_append, List.foldl_cons, if_pos hneg]
  unfold runSimulation
  rw [hmap]

/-- Witness for C10: dropping a month-1 override of amount -1.00 from the
hand-checked scenario leaves the whole result unchanged. -/
theorem negative_override_skipped_witness :
    negOverride.amount < 0 ∧
      runSimulation settingsHand debtsHand [] [negOverride] =
        runSimulation settingsHand debtsHand [] [] :=
  ⟨by decide,
   negative_override_skipped settingsHand debtsHand [] [] [] negOverride (by decide)⟩

/-! ## C9: every serialized money field is a fixed two-decimal string -/

theorem natChars_append (fuel : Nat) : ∀ (n : Nat) (acc : List Char),
    natChars fuel n acc = natChars fuel n [] ++ acc := by
  induction fuel with
  | zero => intro n acc; simp [natChars]
  | succ f ih =>
    intro n acc
    by_cases h : n < 10
    · simp [natChars, h]
    · simp only [natChars, if_neg h]
      rw [ih (n / 10) (Char.ofNat (48 + n % 10) :: acc),
        ih (n / 10) [Char.ofNat (48 + n % 10)]]
      simp

theorem digitChar_isDigit {r : Nat} (h : r < 10) :
    (Char.ofNat (48 + r)).isDigit = true := by
  interval_cases r <;> decide

theorem natChars_digits (fuel : Nat) : ∀ (n : Nat) (acc : List Char),
    (∀ c ∈ acc, c.isDigit = true) → ∀ c ∈ natChars fuel n acc, c.isDigit = true := by
  induction fuel with
  | zero => intro n acc hacc; simpa [natChars] using hacc
  | succ f ih =>
    intro n acc hacc c hc
    by_cases h : n < 10
    · simp only [natChars, if_pos h, List.mem_cons] at hc
      rcases hc with rfl | hc
      · exact digitChar_isDigit h
      · exact hacc c hc
    · simp only [natChars, if_neg h] at hc
      refine ih (n / 10) _ ?_ c hc
      intro c' hc'
      rcases List.mem_cons.mp hc' with rfl | hc'
      · exact digitChar_isDigit (Nat.mod_lt n (by omega))
      · exact hacc c' hc'

theorem natChars_ne_nil (fuel n : Nat) (acc : List Char) :
    natChars (fuel + 1) n acc ≠ [] := by
  by_cases h : n < 10
  · simp [natChars, h]
  · simp only [natChars, if_neg h]
    rw [natChars_append]
    simp

theorem natStr_digits (n : Nat) : ∀ c ∈ (natStr n).data, c.isDigit = true := by
  intro c hc
  exact natChars_digits (n + 1) n [] (by simp) c hc

theorem natStr_ne_nil (n : Nat) : (natStr n).data ≠ [] :=
  natChars_ne_nil n n []

theorem dropWhile_digits_append (y : Char) (r : List Char)
    (hy : y.isDigit = false) : ∀ (X : List Char), (∀ c ∈ X, c.isDigit = true) →
    (X ++ y :: r).dropWhile Char.isDigit = y :: r ∧
      (X ++ y :: r).takeWhile Char.isDigit = X := by
  intro X
  induction X with
  | nil => intro _; simp [List.dropWhile, List.takeWhile, hy]
  | cons c X' ih =>
    intro hX
    have hc : c.isDigit = true := hX c (by simp)
    have hX' : ∀ c' ∈ X', c'.isDigit = true := fun c' h => hX c' (by simp [h])
    rcases ih hX' with ⟨h1, h2⟩
    simp [List.dropWhile, List.takeWhile, hc, h1, h2]

theorem moneyBody_of_shape (X : List Char) (a b : Char)
    (hX : ∀ c ∈ X, c.isDigit = true) (hne : X ≠ [])
    (ha : a.isDigit = true) (hb : b.isDigit = true) :
    moneyBody (X ++ '.' :: [a, b]) = true := by
  rcases dropWhile_digits_append '.' [a, b] (by decide) X hX with ⟨h1, h2⟩
  simp [moneyBody, h1, h2, hne, ha, hb]

theorem centsToStr_format (z : ℤ) : isMoneyFormat (centsToStr z) = true := by
  have hcents : z.natAbs % 100 < 100 := Nat.mod_lt _ (by omega)
  set a := z.natAbs with ha
  set cents := a % 100 with hcdef
  have hfrac : ∃ c₁ c₂, (if cents < 10 then "0" ++ natStr cents else natStr cents).data
      = [c₁, c₂] ∧ c₁.isDigit = true ∧ c₂.isDigit = true := by
    by_cases h10 : cents < 10
    · refine ⟨'0', Char.ofNat (48 + cents), ?_, by decide, digitChar_isDigit h10⟩
      rw [if_pos h10]
      have : (natStr cents).data = [Char.ofNat (48 + cents)] := by
        simp [natStr, natChars, h10]
      simp [String.data_append, this]
    · refine ⟨Char.ofNat (48 + cents / 10), Char.ofNat (48 + cents % 10), ?_,
        digitChar_isDigit (by omega), digitChar_isDigit (Nat.mod_lt _ (by omega))⟩
      rw [if_neg h10]
      rcases Nat.exists_eq_succ_of_ne_zero (by omega : cents ≠ 0) with ⟨c', hc'⟩
      rw [hc']
      have h1 : ¬c' + 1 < 10 := by omega
      have h2 : (c' + 1) / 10 < 10 := by omega
      have h2' : cents / 10 < 10 := by omega
      have hm : (c' + 1) % 10 = cents % 10 := by rw [hc']
      have hd : (c' + 1) / 10 = cents / 10 := by rw [hc']
      simp [natStr, natChars, h1, h2, h2', hm, hd]
  rcases hfrac with ⟨c₁, c₂, hfd, hd1, hd2⟩
  have hint : ∀ c ∈ (natStr (a / 100)).data, c.isDigit = true := natStr_digits _
  have hintne : (natStr (a / 100)).data ≠ [] := natStr_ne_nil _
  have hbody : moneyBody ((natStr (a / 100)).data ++ '.' :: [c₁, c₂]) = true :=
    moneyBody_of_shape _ c₁ c₂ hint hintne hd1 hd2
  by_cases hz : z < 0
  · have hdata : (centsToStr z).data =
        '-' :: ((natStr (a / 100)).data ++ '.' :: [c₁, c₂]) := by
      simp only [centsToStr, if_pos hz, ← ha, ← hcdef, String.data_append, hfd]
      simp
    simp [isMoneyFormat, hdata, hbody]
  · obtain ⟨c0, r0, hX⟩ : ∃ c0 r0, (natStr (a / 100)).data = c0 :: r0 := by
      rcases hi : (natStr (a / 100)).data with _ | ⟨c0, r0⟩
      · exact absurd hi hintne
      · exact ⟨c0, r0, rfl⟩
    have hc0 : c0.isDigit = true := hint c0 (by simp [hX])
    have hc0ne : ¬c0 = '-' := by
      intro h; rw [h] at hc0; exact absurd hc0 (by decide)
    have hdata : (centsToStr z).data = c0 :: (r0 ++ '.' :: [c₁, c₂]) := by
      simp only [centsToStr, if_neg hz, ← ha, ← hcdef, String.data_append, hfd, hX]
      simp
    rw [hX] at hbody
    simp only [isMoneyFormat, hdata, if_neg hc0ne]
    simpa using hbody

/-- C9: in every successful output, every money field (the months'
interest, pool and override amounts and per-debt payment and balance
entries, the per-debt summary amounts, and the totals) serializes as a
fixed two-decimal string matching `-?\d+\.\d\x7b2\x7d` — never a
floating-point number. -/
theorem money_fields_two_decimal (settings : Setting) (debts : List Debt)
    (so : List ScheduleOverride) (po : List PaymentOverride) (r : SimResult)
    (hrun : runSimulation settings debts so po = .ok r) :
    ∀ s ∈ moneyStrings r, isMoneyFormat s = true := by
  intro s hs
  rcases List.mem_map.mp hs with ⟨z, _, rfl⟩
  exact centsToStr_format z

/-- Witness for C9: the hand-checked scenario's serialized total interest. -/
theorem money_fields_two_decimal_witness :
    isMoneyFormat (centsToStr handResult.totals.totalInterest) = true :=
  money_fields_two_decimal settingsHand debtsHand [] [] handResult rfl
    (centsToStr handResult.totals.totalInterest)
    (List.mem_map.mpr ⟨handResult.totals.totalInterest, by decide, rfl⟩)

/-! ## The sort orders: totality, transitivity, sortedness -/

theorem charsLeB_nil (y : List Char) : charsLeB [] y = true := by
  cases y <;> rfl

theorem charsLeB_total : ∀ x y, charsLeB x y = true ∨ charsLeB y x = true := by
  intro x
  induction x with
  | nil => intro y; left; exact charsLeB_nil y
  | cons a as ih =>
    intro y
    cases y with
    | nil => right; exact charsLeB_nil _
    | cons b bs =>
      rcases lt_trichotomy a b with h | h | h
      · left; simp [charsLeB, h]
      · subst h
        rcases ih bs with h2 | h2
        · left; simp [charsLeB, lt_irrefl, h2]
        · right; simp [charsLeB, lt_irrefl, h2]
      · right; simp [charsLeB, h]

theorem charsLeB_trans :
    ∀ x y z, charsLeB x y = true → charsLeB y z = true → charsLeB x z = true := by
  intro x
  induction x with
  | nil => intro y z _ _; exact charsLeB_nil z
  | cons a as ih =>
    intro y z hxy hyz
    cases y with
    | nil => simp [charsLeB] at hxy
    | cons b bs =>
      cases z with
      | nil => simp [charsLeB] at hyz
      | cons c cs =>
        by_cases hab : a < b
        · by_cases hbc : b < c
          · simp [charsLeB, lt_trans hab hbc]
          · by_cases hcb : c < b
            · simp only [charsLeB, if_neg hbc, if_pos hcb] at hyz
              exact absurd hyz (by simp)
            · have : b = c := le_antisymm (le_of_not_lt hcb) (le_of_not_lt hbc)
              subst this
              simp [charsLeB, hab]
        · by_cases hba : b < a
          · simp only [charsLeB, if_neg hab, if_pos hba] at hxy
            exact absurd hxy (by simp)
          · have : a = b := le_antisymm (le_of_not_lt hba) (le_of_not_lt hab)
            subst this
            by_cases hbc : a < c
            · simp [charsLeB, hbc]
            · by_cases hcb : c < a
              · simp only [charsLeB, if_neg hbc, if_pos hcb] at hyz
                exact absurd hyz (by simp)
              · have : a = c := le_antisymm (le_of_not_lt hcb) (le_of_not_lt hbc)
                subst this
                simp only [charsLeB, if_neg hbc, lt_irrefl, if_neg (lt_irrefl a)] at *
                exact ih bs cs hxy hyz

theorem skeyLe_total (x y : SKey) : SKey.le x y ∨ SKey.le y x := by
  unfold SKey.le
  rcases lt_trichotomy x.k1 y.k1 with h1 | h1 | h1
  · left; left; exact h1
  · rcases lt_trichotomy x.k2 y.k2 with h2 | h2 | h2
    · left; right; exact ⟨h1, .inl h2⟩
    · rcases charsLeB_total x.k3 y.k3 with h3 | h3
      · left; right; exact ⟨h1, .inr ⟨h2, h3⟩⟩
      · right; right; exact ⟨h1.symm, .inr ⟨h2.symm, h3⟩⟩
    · right; right; exact ⟨h1.symm, .inl h2⟩
  · right; left; exact h1

theorem skeyLe_trans (x y z : SKey) (hxy : SKey.le x y) (hyz : SKey.le y z) :
    SKey.le x z := by
  unfold SKey.le at *
  rcases hxy with h1 | ⟨h1, h2⟩
  · rcases hyz with g1 | ⟨g1, _⟩
    · exact .inl (lt_trans h1 g1)
    · exact .inl (g1 ▸ h1)
  · rcases hyz with g1 | ⟨g1, g2⟩
    · exact .inl (h1 ▸ g1)
    · refine .inr ⟨h1.trans g1, ?_⟩
      rcases h2 with h2 | ⟨h2, h3⟩
      · rcases g2 with g2 | ⟨g2, _⟩
        · exact .inl (lt_trans h2 g2)
        · exact .inl (g2 ▸ h2)
      · rcases g2 with g2 | ⟨g2, g3⟩
        · exact .inl (h2 ▸ g2)
        · exact .inr ⟨h2.trans g2, charsLeB_trans _ _ _ h3 g3⟩

instance (s : Strategy) : IsTotal DS (sortRel s) :=
  ⟨fun a b => skeyLe_total (sortKey s a) (sortKey s b)⟩

instance (s : Strategy) : IsTrans DS (sortRel s) :=
  ⟨fun _ _ _ h h' => skeyLe_trans _ _ _ h h'⟩

instance (s : Strategy) : IsTotal (Nat × DS) (pairRel s) :=
  ⟨fun a b => skeyLe_total (sortKey s a.2) (sortKey s b.2)⟩

instance (s : Strategy) : IsTrans (Nat × DS) (pairRel s) :=
  ⟨fun _ _ _ h h' => skeyLe_trans _ _ _ h h'⟩

theorem orderDebtsT_perm (s : Strategy) (l : List DS) :
    (orderDebtsT s l).Perm l :=
  List.perm_insertionSort (sortRel s) l

theorem orderDebtsT_sorted (s : Strategy) (l : List DS) :
    List.Sorted (sortRel s) (orderDebtsT s l) :=
  List.sorted_insertionSort (sortRel s) l

/-- The engine's avalanche comparison agrees with the specification's
wording of it. -/
theorem sortRel_avalanche_iff (a b : DS) :
    sortRel .avalanche a b ↔ specAvalancheLe a b := by
  show SKey.le ⟨-a.apr, (a.balance : ℚ), nameKey a⟩ ⟨-b.apr, (b.balance : ℚ), nameKey b⟩
    ↔ specAvalancheLe a b
  unfold SKey.le specAvalancheLe
  dsimp only
  constructor
  · rintro (h1 | ⟨h1, h2 | ⟨h2, h3⟩⟩)
    · exact .inl (by exact_mod_cast neg_lt_neg_iff.mp h1)
    · exact .inr ⟨(neg_inj.mp h1).symm, .inl (by exact_mod_cast h2)⟩
    · exact .inr ⟨(neg_inj.mp h1).symm, .inr ⟨by exact_mod_cast h2, h3⟩⟩
  · rintro (h1 | ⟨h1, h2 | ⟨h2, h3⟩⟩)
    · exact .inl (neg_lt_neg_iff.mpr (by exact_mod_cast h1))
    · exact .inr ⟨neg_inj.mpr h1.symm, .inl (by exact_mod_cast h2)⟩
    · exact .inr ⟨neg_inj.mpr h1.symm, .inr ⟨by exact_mod_cast h2, h3⟩⟩

/-- C7: ordering under the avalanche strategy is the deterministic total
order sorted by APR descending, ties broken by current balance ascending,
final ties by creditor name case-insensitive ascending: `order_debts`
returns a permutation of its input sorted under that (total) relation. -/
theorem avalanche_ordering (l : List DS) :
    order_debts "avalanche" l = .ok (orderDebtsT .avalanche l) ∧
    (orderDebtsT .avalanche l).Perm l ∧
    List.Sorted specAvalancheLe (orderDebtsT .avalanche l) ∧
    (∀ a b : DS, specAvalancheLe a b ∨ specAvalancheLe b a) := by
  refine ⟨rfl, orderDebtsT_perm _ l, ?_, ?_⟩
  · exact (orderDebtsT_sorted .avalanche l).imp
      (fun h => (sortRel_avalanche_iff _ _).mp h)
  · intro a b
    rcases skeyLe_total (sortKey .avalanche a) (sortKey .avalanche b) with h | h
    · exact .inl ((sortRel_avalanche_iff _ _).mp h)
    · exact .inr ((sortRel_avalanche_iff _ _).mp h)

/-! ## C3: the insufficient-budget check -/

/-- The only error the loop itself can produce is the iteration ceiling. -/
theorem simLoop_error_eq (strat : Strategy) (schedMap : PyDict Nat ℤ)
    (povMap : PyDict Nat (PyDict ℤ ℤ)) (snow : ℤ) (bd : Date) :
    ∀ (fuel monthIndex : Nat) (st : SimState) (e : SimError),
      simLoop strat schedMap povMap snow bd fuel monthIndex st = .error e →
      e = .exceededMaxDuration := by
  intro fuel
  induction fuel with
  | zero =>
    intro m st e h
    by_cases hp : anyPositive st.debts
    · simp only [simLoop, if_pos hp, Except.error.injEq] at h
      exact h.symm
    · simp [simLoop, hp] at h
  | succ f ih =>
    intro m st e h
    by_cases hp : anyPositive st.debts
    · simp only [simLoop, if_pos hp] at h
      by_cases hg : 600 < m + 1
      · simp only [if_pos hg, Except.error.injEq] at h
        exact h.symm
      · simp only [if_neg hg] at h
        rcases hrec : simLoop strat schedMap povMap snow bd f (m + 1)
            (stepMonthT strat schedMap povMap snow bd m st).2 with e' | p
        · rw [hrec] at h
          simp only [Except.error.injEq] at h
          exact h ▸ ih (m + 1) _ e' hrec
        · rw [hrec] at h
          simp at h
    · simp [simLoop, hp] at h

/-- The sum of minimum payments as computed from the raw debts. -/
theorem minSum_initialStates (debts : List Debt) :
    ((initialStates debts).map DS.minimumPayment).sum =
      (debts.map Debt.minimumPayment).sum := by
  simp only [initialStates, List.map_map]
  rfl

/-- C3: for a non-empty debt list, a monthly budget strictly below the sum
of minimum payments fails with `InsufficientBudget` before any month is
simulated (no partial result), and a budget at least that sum never
produces this error. -/
theorem insufficient_budget_check (settings : Setting) (debts : List Debt)
    (so : List ScheduleOverride) (po : List PaymentOverride)
    (hne : debts ≠ []) :
    (settings.monthlyBudget < (debts.map Debt.minimumPayment).sum →
      runSimulation settings debts so po = .error .insufficientBudget) ∧
    ((debts.map Debt.minimumPayment).sum ≤ settings.monthlyBudget →
      runSimulation settings debts so po ≠ .error .insufficientBudget) := by
  have hemp : (initialStates debts).isEmpty = false := by
    simp [initialStates, hne]
  constructor
  · intro hlt
    simp only [runSimulation, hemp, Bool.false_eq_true, if_false]
    rw [if_pos (by rw [minSum_initialStates]; exact hlt)]
  · intro hge
    simp only [runSimulation, hemp, Bool.false_eq_true, if_false]
    rw [if_neg (by rw [minSum_initialStates]; exact not_lt.mpr hge)]
    rcases parseStrategy settings.strategy with _ | strat
    · simp
    · rcases hsim : simLoop strat (buildSchedMap so) (buildPovMap po)
          (max (settings.monthlyBudget - ((initialStates debts).map DS.minimumPayment).sum) 0)
          settings.balanceDate 600 1 ⟨initialStates debts, 0, 0, []⟩ with e | p
      · simp only [hsim]
        have := simLoop_error_eq _ _ _ _ _ _ _ _ _ hsim
        subst this
        simp
      · simp [hsim]

/-- Witness for C3: the spec's insufficient-budget scenario (budget 50.00,
single debt with minimum 60.00) fails with `InsufficientBudget`, and the
hand-checked scenario (budget at least the minimums) never does. -/
theorem insufficient_budget_check_witness :
    runSimulation settingsLow debtsLow [] [] = .error .insufficientBudget ∧
      runSimulation settingsHand debtsHand [] [] ≠ .error .insufficientBudget :=
  ⟨(insufficient_budget_check settingsLow debtsLow [] [] (by simp [debtsLow])).1
      (by decide),
   (insufficient_budget_check settingsHand debtsHand [] [] (by simp [debtsHand])).2
      (by decide)⟩

/-! ## C5: the dates of the recorded months -/

/-- Adding zero months to a valid date is the identity. -/
theorem addMonths_zero (d : Date) (hv : d.isValid) : addMonths d 0 = d := by
  cases d with
  | mk y m dd =>
    obtain ⟨h1, h2, h3, h4⟩ := hv
    dsimp only at h1 h2 h3 h4
    unfold addMonths
    have hdiv : (m - 1 + 0) / 12 = 0 := by omega
    have hmod : (m - 1 + 0) % 12 + 1 = m := by omega
    have hdiv' : (m - 1) / 12 = 0 := by omega
    have hmod' : (m - 1) % 12 + 1 = m := by omega
    simp only [hdiv, hmod, hdiv', hmod', Nat.cast_zero, add_zero, Date.mk.injEq]
    refine ⟨trivial, trivial, ?_⟩
    exact min_eq_left h4

/-- For a valid balance date, the recorded date of month `k + 1` is
`addMonths` of the balance date by `k`. -/
theorem dateFor_eq_addMonths (bd : Date) (hv : bd.isValid) (k : Nat) :
    dateFor bd (k + 1) = addMonths bd k := by
  unfold dateFor
  by_cases h : k + 1 = 1
  · have : k = 0 := by omega
    subst this
    rw [if_pos h, addMonths_zero bd hv]
  · rw [if_neg h]
    congr 1

/-- The records the loop produces carry consecutive month indices starting
at the entry index, each dated `dateFor` of its index. -/
theorem simLoop_months_shape (strat : Strategy) (schedMap : PyDict Nat ℤ)
    (povMap : PyDict Nat (PyDict ℤ ℤ)) (snow : ℤ) (bd : Date) :
    ∀ (fuel m : Nat) (st : SimState) (recs : List MonthRec) (stF : SimState),
      simLoop strat schedMap povMap snow bd fuel m st = .ok (recs, stF) →
      ∀ k, k < recs.length →
        (recs.getD k default).monthIndex = m + k ∧
        (recs.getD k default).date = dateFor bd (m + k) := by
  intro fuel
  induction fuel with
  | zero =>
    intro m st recs stF h k hk
    by_cases hp : anyPositive st.debts
    · simp [simLoop, hp] at h
    · simp only [simLoop, if_neg hp, Except.ok.injEq, Prod.mk.injEq] at h
      rw [← h.1] at hk
      simp at hk
  | succ f ih =>
    intro m st recs stF h k hk
    by_cases hp : anyPositive st.debts
    · simp only [simLoop, if_pos hp] at h
      by_cases hg : 600 < m + 1
      · simp [hg] at h
      · simp only [if_neg hg] at h
        rcases hrec : simLoop strat schedMap povMap snow bd f (m + 1)
            (stepMonthT strat schedMap povMap snow bd m st).2 with e | ⟨recs', stF'⟩
        · rw [hrec] at h; simp at h
        · rw [hrec] at h
          simp only [Except.ok.injEq, Prod.mk.injEq] at h
          obtain ⟨hrecs, _⟩ := h
          subst hrecs
          cases k with
          | zero => exact ⟨rfl, rfl⟩
          | succ j =>
            have hj : j < recs'.length := by
              simpa using hk
            rcases ih (m + 1) _ recs' stF' hrec j hj with ⟨h1, h2⟩
            have hadd : m + 1 + j = m + (j + 1) := by omega
            rw [List.getD_cons_succ]
            rw [← hadd]
            exact ⟨h1, h2⟩
    · simp only [simLoop, if_neg hp, Except.ok.injEq, Prod.mk.injEq] at h
      rw [← h.1] at hk
      simp at hk

/-- Unfolding a successful `runSimulation`: either the input was empty, or
the pre-checks passed and the loop succeeded. -/
theorem runSimulation_ok_elim (settings : Setting) (debts : List Debt)
    (so : List ScheduleOverride) (po : List PaymentOverride) (r : SimResult)
    (hrun : runSimulation settings debts so po = .ok r) :
    (debts = [] ∧ r = default) ∨
    ∃ strat months stF,
      parseStrategy settings.strategy = some strat ∧
      ((initialStates debts).map DS.minimumPayment).sum ≤ settings.monthlyBudget ∧
      simLoop strat (buildSchedMap so) (buildPovMap po)
        (max (settings.monthlyBudget - ((initialStates debts).map DS.minimumPayment).sum) 0)
        settings.balanceDate 600 1 ⟨initialStates debts, 0, 0, []⟩ = .ok (months, stF) ∧
      r = assembleResult settings strat (initialStates debts)
            ((initialStates debts).map DS.minimumPayment).sum months stF := by
  by_cases hemp : (initialStates debts).isEmpty
  · left
    have hd : debts = [] := by
      rcases debts with _ | ⟨d, rest⟩
      · rfl
      · simp [initialStates] at hemp
    refine ⟨hd, ?_⟩
    subst hd
    simp only [runSimulation, initialStates, List.map_nil, List.isEmpty_nil,
      if_true] at hrun
    simp only [Except.ok.injEq] at hrun
    exact hrun.symm
  · right
    simp only [runSimulation, Bool.not_eq_true] at hrun hemp
    rw [hemp] at hrun
    simp only [Bool.false_eq_true, if_false] at hrun
    by_cases hb : settings.monthlyBudget < ((initialStates debts).map DS.minimumPayment).sum
    · rw [if_pos hb] at hrun
      exact absurd hrun (by simp)
    · rw [if_neg hb] at hrun
      rcases hps : parseStrategy settings.strategy with _ | strat
      · rw [hps] at hrun
        exact absurd hrun (by simp)
      · rw [hps] at hrun
        dsimp only at hrun
        rcases hsim : simLoop strat (buildSchedMap so) (buildPovMap po)
            (max (settings.monthlyBudget - ((initialStates debts).map DS.minimumPayment).sum) 0)
            settings.balanceDate 600 1 ⟨initialStates debts, 0, 0, []⟩ with e | ⟨months, stF⟩
        · rw [hsim] at hrun
          exact absurd hrun (by simp)
        · rw [hsim] at hrun
          simp only [Except.ok.injEq] at hrun
          exact ⟨strat, months, stF, rfl, not_lt.mp hb, hsim, hrun.symm⟩

/-- Counterexample to C5 as stated: starting 2024-01-31, month 2 is
recorded as 2024-02-29 and month 3 as 2024-03-31, but `addMonths` applied
once to 2024-02-29 gives 2024-03-29, not 2024-03-31. -/
theorem dates_drift_from_iterated_addMonths :
    (runSimulation settingsJan debtsJan [] []).isOk = true ∧
    (monthAt janResult 2).date = ⟨2024, 2, 29⟩ ∧
    (monthAt janResult 3).date = ⟨2024, 3, 31⟩ ∧
    addMonths ⟨2024, 2, 29⟩ 1 = ⟨2024, 3, 29⟩ ∧
    (monthAt janResult 3).date ≠ addMonths (monthAt janResult 2).date 1 := by
  decide

/-- C5 (amended): in every successful run with a valid balance date, the
k-th recorded month (1-based index k) carries month index k and the date
`addMonths(balance date, k - 1)` — computed from the balance date, not by
iterating `addMonths` on the previous month's date; in particular the
first recorded month's date is the balance date itself. -/
theorem month_dates_from_balance_date (settings : Setting) (debts : List Debt)
    (so : List ScheduleOverride) (po : List PaymentOverride) (r : SimResult)
    (hrun : runSimulation settings debts so po = .ok r)
    (hv : settings.balanceDate.isValid) :
    (∀ k, k < r.months.length →
      (r.months.getD k default).monthIndex = k + 1 ∧
      (r.months.getD k default).date = addMonths settings.balanceDate k) ∧
    (0 < r.months.length →
      (r.months.getD 0 default).date = settings.balanceDate) := by
  have hmain : ∀ k, k < r.months.length →
      (r.months.getD k default).monthIndex = k + 1 ∧
      (r.months.getD k default).date = addMonths settings.balanceDate k := by
    rcases runSimulation_ok_elim settings debts so po r hrun with ⟨_, hr⟩ | hr
    · subst hr
      intro k hk
      simp [default] at hk
    · obtain ⟨strat, months, stF, _, _, hsim, hr⟩ := hr
      have hm : r.months = months := by rw [hr]; rfl
      intro k hk
      rw [hm] at hk ⊢
      rcases simLoop_months_shape strat _ _ _ _ 600 1 _ months stF hsim k hk
        with ⟨h1, h2⟩
      rw [h1, h2, Nat.add_comm 1 k, dateFor_eq_addMonths _ hv]
      exact ⟨rfl, rfl⟩
  refine ⟨hmain, ?_⟩
  intro h0
  rw [(hmain 0 h0).2, addMonths_zero _ hv]

/-- Witness for C5's amended theorem: month 3 of the Jan-31 scenario is
dated `addMonths` of the balance date by 2 (2024-03-31). -/
theorem month_dates_from_balance_date_witness :
    (janResult.months.getD 2 default).date = addMonths ⟨2024, 1, 31⟩ 2 := by
  have h := month_dates_from_balance_date settingsJan debtsJan [] [] janResult
    rfl (by decide)
  exact (h.1 2 (by decide)).2

/-! ## C2: the 600-month iteration ceiling -/

theorem statesFrom_succ_right (strat : Strategy) (schedMap : PyDict Nat ℤ)
    (povMap : PyDict Nat (PyDict ℤ ℤ)) (snow : ℤ) (bd : Date) :
    ∀ (k m : Nat) (st : SimState),
      statesFrom strat schedMap povMap snow bd m (k + 1) st =
        (stepMonthT strat schedMap povMap snow bd (m + k)
          (statesFrom strat schedMap povMap snow bd m k st)).2 := by
  intro k
  induction k with
  | zero => intro m st; rfl
  | succ j ih =>
    intro m st
    have h1 : statesFrom strat schedMap povMap snow bd m (j + 1 + 1) st =
        statesFrom strat schedMap povMap snow bd (m + 1) (j + 1)
          (stepMonthT strat schedMap povMap snow bd m st).2 := rfl
    rw [h1, ih (m + 1)]
    have h2 : m + 1 + j = m + (j + 1) := by omega
    rw [h2]
    rfl

/-- The loop fails with the iteration-ceiling error precisely when some
debt is still open at the start of each of the months it can reach:
with `m + fuel = 601`, months `m, m+1, ...` up to and including month 600
are simulated, and the guard fires after month 600 regardless of payoff. -/
theorem simLoop_error_iff (strat : Strategy) (schedMap : PyDict Nat ℤ)
    (povMap : PyDict Nat (PyDict ℤ ℤ)) (snow : ℤ) (bd : Date) :
    ∀ (fuel m : Nat) (st : SimState), m + fuel = 601 →
      (simLoop strat schedMap povMap snow bd fuel m st = .error .exceededMaxDuration ↔
        ∀ k ≤ fuel - 1,
          anyPositive (statesFrom strat schedMap povMap snow bd m k st).debts = true) := by
  intro fuel
  induction fuel with
  | zero =>
    intro m st _
    by_cases hp : anyPositive st.debts
    · simp only [simLoop, if_pos hp]
      constructor
      · intro _ k hk
        have : k = 0 := by omega
        subst this
        exact hp
      · intro _; trivial
    · simp only [simLoop, if_neg hp]
      constructor
      · intro h; exact absurd h (by simp)
      · intro hall
        exact absurd (hall 0 (by omega)) (by simpa using hp)
  | succ f ih =>
    intro m st hm
    by_cases hp : anyPositive st.debts
    · simp only [simLoop, if_pos hp]
      by_cases hg : 600 < m + 1
      · have hf : f = 0 := by omega
        subst hf
        simp only [if_pos hg]
        constructor
        · intro _ k hk
          have : k = 0 := by omega
          subst this
          exact hp
        · intro _; trivial
      · have hf : 1 ≤ f := by omega
        simp only [if_neg hg]
        have ihm : (m + 1) + f = 601 := by omega
        rcases hrec : simLoop strat schedMap povMap snow bd f (m + 1)
            (stepMonthT strat schedMap povMap snow bd m st).2 with e | ⟨recs', stF'⟩
        · have he : e = .exceededMaxDuration :=
            simLoop_error_eq strat schedMap povMap snow bd f (m + 1) _ e hrec
          subst he
          simp only [Except.error.injEq]
          constructor
          · intro _ k hk
            cases k with
            | zero => exact hp
            | succ j =>
              have hj : j ≤ f - 1 := by omega
              have := (ih (m + 1) _ ihm).mp hrec j hj
              simpa [statesFrom] using this
          · intro _; trivial
        · constructor
          · intro h; exact absurd h (by simp)
          · intro hall
            have : simLoop strat schedMap povMap snow bd f (m + 1)
                (stepMonthT strat schedMap povMap snow bd m st).2 =
                .error .exceededMaxDuration := by
              refine (ih (m + 1) _ ihm).mpr ?_
              intro j hj
              have := hall (j + 1) (by omega)
              simpa [statesFrom] using this
            rw [this] at hrec
            exact absurd hrec (by simp)
    · simp only [simLoop, if_neg hp]
      constructor
      · intro h; exact absurd h (by simp)
      · intro hall
        exact absurd (hall 0 (by omega)) (by simpa using hp)

/-- Folding the pre-checks of `run_simulation` into the loop's error. -/
theorem runSimulation_error_of_simLoop (settings : Setting) (debts : List Debt)
    (so : List ScheduleOverride) (po : List PaymentOverride) (strat : Strategy)
    (hne : (initialStates debts).isEmpty = false)
    (hb : ¬settings.monthlyBudget < ((initialStates debts).map DS.minimumPayment).sum)
    (hstrat : parseStrategy settings.strategy = some strat)
    (he : simLoop strat (buildSchedMap so) (buildPovMap po)
      (max (settings.monthlyBudget - ((initialStates debts).map DS.minimumPayment).sum) 0)
      settings.balanceDate 600 1 ⟨initialStates debts, 0, 0, []⟩ =
        .error .exceededMaxDuration) :
    runSimulation settings debts so po = .error .exceededMaxDuration := by
  simp only [runSimulation, hne, Bool.false_eq_true, if_false]
  rw [if_neg hb, hstrat]
  dsimp only
  rw [he]

theorem monthlyInterest_debt600 (b : ℤ) :
    monthlyInterest ⟨1, "Loan", b, 60000, 0, 100, none, 0, 0, none⟩ = 0 := by
  simp [monthlyInterest, divRoundNearest]

/-- One month of the 600-month scenario while the balance stays open:
exactly the 1.00 minimum payment is applied. -/
theorem step_debt600 (m : Nat) (b : ℤ) (hb : 100 < b) :
    (stepMonthT .avalanche [] [] 0 ⟨2024, 1, 1⟩ m ⟨[debt600State b], 0, 0, []⟩).2 =
      ⟨[debt600State (b - 100)], 0, 0, []⟩ := by
  have h1 : ¬(b ≤ 0) := by omega
  have h2 : ¬(b - 100 ≤ 0) := by omega
  have h3 : min (100 : ℤ) b = 100 := min_eq_left (by omega)
  simp [stepMonthT, monthIdxs, monthPayments0, monthInterest, monthBAI,
    monthPool, monthMin, monthSnow, monthOverride, monthWarnings, monthPayFinal,
    monthSettle, orderedIdx, interestPhase, minPaymentPhase, snowballPhase,
    overridePhase, settlePhase, buildBalancesDict, daddTo, dinsert, dget, dfind,
    dvaluesSum, debt600State, h1, h2, h3, monthlyInterest_debt600,
    List.insertionSort, List.orderedInsert]

/-- The 600-month scenario's state after `k ≤ 599` months: the balance has
dropped by exactly 1.00 per month and the debt is still open. -/
theorem states_debt600 : ∀ k ≤ 599,
    statesFrom .avalanche [] [] 0 ⟨2024, 1, 1⟩ 1 k ⟨initialStates debts600, 0, 0, []⟩ =
      ⟨[debt600State (60000 - 100 * k)], 0, 0, []⟩ := by
  intro k
  induction k with
  | zero =>
    intro _
    show (⟨initialStates debts600, 0, 0, []⟩ : SimState) = _
    norm_num
    rfl
  | succ j ih =>
    intro hj
    rw [statesFrom_succ_right, ih (by omega), step_debt600 _ _ (by omega)]
    have : 60000 - 100 * (j : ℤ) - 100 = 60000 - 100 * ((j : ℤ) + 1) := by ring
    rw [this]
    norm_num

/-- Counterexample to C2 as stated: with budget 1.00 and a single
zero-interest debt of 600.00 (minimum 1.00), every debt reaches zero
within 600 simulated months (and not sooner), yet `run_simulation` raises
`ExceededMaxDuration` instead of terminating normally, because the guard
fires after month 600 is simulated regardless of payoff. -/
theorem payoff_in_month_600_still_errors :
    runSimulation settings600 debts600 [] [] = .error .exceededMaxDuration ∧
    anyPositive (simStatesAfter settings600 debts600 [] [] .avalanche 600).debts
      = false := by
  have hall : ∀ k ≤ 599,
      anyPositive (statesFrom .avalanche [] [] 0 ⟨2024, 1, 1⟩ 1 k
        ⟨initialStates debts600, 0, 0, []⟩).debts = true := by
    intro k hk
    rw [states_debt600 k hk]
    have : (0 : ℤ) < 60000 - 100 * k := by omega
    simp [anyPositive, debt600State, this]
  constructor
  · refine runSimulation_error_of_simLoop settings600 debts600 [] [] .avalanche
      (by decide) (by decide) (by decide) ?_
    exact (simLoop_error_iff .avalanche [] [] 0 ⟨2024, 1, 1⟩ 600 1 _ (by omega)).mpr
      hall
  · have hunfold : simStatesAfter settings600 debts600 [] [] .avalanche 600 =
        statesFrom .avalanche [] [] 0 ⟨2024, 1, 1⟩ 1 600
          ⟨initialStates debts600, 0, 0, []⟩ := rfl
    have h600 : statesFrom .avalanche [] [] 0 ⟨2024, 1, 1⟩ 1 600
        ⟨initialStates debts600, 0, 0, []⟩ =
        (stepMonthT .avalanche [] [] 0 ⟨2024, 1, 1⟩ 600
          ⟨[debt600State (60000 - 100 * (599 : Nat))], 0, 0, []⟩).2 := by
      rw [statesFrom_succ_right, states_debt600 599 (by omega)]
    rw [hunfold, h600]
    decide

/-- C2 (amended): for a non-empty debt list, a recognized strategy and a
sufficient budget, `run_simulation` fails with `ExceededMaxDuration`
exactly when some debt is still open at the start of every month up to and
including month 600 — i.e. normal termination requires full payoff within
599 simulated months.  (A payoff completing exactly in month 600 still
fails, because the guard fires after that month is simulated.)  Otherwise
the run terminates normally with a complete result. -/
theorem max_duration_iff (settings : Setting) (debts : List Debt)
    (so : List ScheduleOverride) (po : List PaymentOverride) (strat : Strategy)
    (hne : debts ≠ [])
    (hstrat : parseStrategy settings.strategy = some strat)
    (hb : ((initialStates debts).map DS.minimumPayment).sum ≤ settings.monthlyBudget) :
    (runSimulation settings debts so po = .error .exceededMaxDuration ↔
      ∀ k ≤ 599,
        anyPositive (simStatesAfter settings debts so po strat k).debts = true) ∧
    ((¬∀ k ≤ 599,
        anyPositive (simStatesAfter settings debts so po strat k).debts = true) →
      (runSimulation settings debts so po).isOk = true) := by
  have hemp : (initialStates debts).isEmpty = false := by
    simp [initialStates, hne]
  have hiff := simLoop_error_iff strat (buildSchedMap so) (buildPovMap po)
    (max (settings.monthlyBudget - ((initialStates debts).map DS.minimumPayment).sum) 0)
    settings.balanceDate 600 1 ⟨initialStates debts, 0, 0, []⟩ (by omega)
  have hrs : runSimulation settings debts so po =
      match simLoop strat (buildSchedMap so) (buildPovMap po)
        (max (settings.monthlyBudget - ((initialStates debts).map DS.minimumPayment).sum) 0)
        settings.balanceDate 600 1 ⟨initialStates debts, 0, 0, []⟩ with
      | .error e => .error e
      | .ok (months, stF) =>
        .ok (assembleResult settings strat (initialStates debts)
          ((initialStates debts).map DS.minimumPayment).sum months stF) := by
    simp only [runSimulation, hemp, Bool.false_eq_true, if_false]
    rw [if_neg (not_lt.mpr hb), hstrat]
  have hmain : runSimulation settings debts so po = .error .exceededMaxDuration ↔
      ∀ k ≤ 599,
        anyPositive (simStatesAfter settings debts so po strat k).debts = true := by
    rw [hrs]
    rcases hsim : simLoop strat (buildSchedMap so) (buildPovMap po)
        (max (settings.monthlyBudget - ((initialStates debts).map DS.minimumPayment).sum) 0)
        settings.balanceDate 600 1 ⟨initialStates debts, 0, 0, []⟩ with e | ⟨months, stF⟩
    · have he : e = .exceededMaxDuration :=
        simLoop_error_eq strat _ _ _ _ 600 1 _ e hsim
      subst he
      rw [hsim] at hiff
      constructor
      · intro _
        exact hiff.mp rfl
      · intro _
        rfl
    · rw [hsim] at hiff
      constructor
      · intro h
        exact absurd h (by simp)
      · intro hall
        exact absurd (hiff.mpr hall) (by simp)
  refine ⟨hmain, ?_⟩
  intro hnall
  rw [hrs]
  rcases hsim : simLoop strat (buildSchedMap so) (buildPovMap po)
      (max (settings.monthlyBudget - ((initialStates debts).map DS.minimumPayment).sum) 0)
      settings.balanceDate 600 1 ⟨initialStates debts, 0, 0, []⟩ with e | ⟨months, stF⟩
  · have he : e = .exceededMaxDuration :=
      simLoop_error_eq strat _ _ _ _ 600 1 _ e hsim
    subst he
    have hrune : runSimulation settings debts so po = .error .exceededMaxDuration := by
      rw [hrs, hsim]
    exact absurd (hmain.mp hrune) hnall
  · rfl

/-- Witness for C2's amended theorem: the hand-checked scenario pays off in
two months, so it is not the case that some debt stays open through all of
the first 600 months. -/
theorem max_duration_iff_witness :
    ¬∀ k ≤ 599,
      anyPositive (simStatesAfter settingsHand debtsHand [] [] .avalanche k).debts
        = true :=
  fun hall => by
    have h := (max_duration_iff settingsHand debtsHand [] [] .avalanche
      (by simp [debtsHand]) rfl (by decide)).1.mpr hall
    have hok : runSimulation settingsHand debtsHand [] [] = .ok handResult := rfl
    rw [hok] at h
    exact absurd h (by simp)

/-! ## Positional list lemmas and per-phase field preservation -/

theorem getD_set_self' [Inhabited α] (l : List α) (i : Nat) (d : α)
    (h : i < l.length) : (l.set i d).getD i default = d := by
  induction l generalizing i with
  | nil => simp at h
  | cons x xs ih =>
    cases i with
    | zero => rfl
    | succ j => exact ih j (by simpa using h)

theorem getD_set_ne' [Inhabited α] (l : List α) {i j : Nat} (d : α)
    (h : j ≠ i) : (l.set i d).getD j default = l.getD j default := by
  induction l generalizing i j with
  | nil => simp [List.set]
  | cons x xs ih =>
    cases i with
    | zero =>
      cases j with
      | zero => exact absurd rfl h
      | succ j' => rfl
    | succ i' =>
      cases j with
      | zero => rfl
      | succ j' => exact ih (fun hh => h (by omega))

theorem set_of_length_le' (l : List α) (i : Nat) (d : α)
    (h : l.length ≤ i) : l.set i d = l := by
  induction l generalizing i with
  | nil => rfl
  | cons x xs ih =>
    cases i with
    | zero => simp at h
    | succ j => simp [List.set, ih j (by simpa using h)]

/-- `getD` update rule for `set`, all cases. -/
theorem getD_set' [Inhabited α] (l : List α) (i j : Nat) (d : α) :
    (l.set i d).getD j default =
      if j = i ∧ i < l.length then d else l.getD j default := by
  by_cases h1 : j = i
  · subst h1
    by_cases h2 : j < l.length
    · simp [getD_set_self' l j d h2, h2]
    · rw [set_of_length_le' l j d (by omega)]
      simp [h2]
  · rw [if_neg (fun hc => h1 hc.1)]
    exact getD_set_ne' l d h1

/-- Two lists with the same length and pointwise equal `f`-projections have
equal `f`-maps. -/
theorem map_eq_of_getD [Inhabited α] (f : α → β) :
    ∀ (l l' : List α), l.length = l'.length →
      (∀ i, f (l.getD i default) = f (l'.getD i default)) →
      l.map f = l'.map f := by
  intro l
  induction l with
  | nil =>
    intro l' hl _
    cases l' with
    | nil => rfl
    | cons y ys => simp at hl
  | cons x xs ih =>
    intro l' hl hp
    cases l' with
    | nil => simp at hl
    | cons y ys =>
      simp only [List.map_cons, List.cons.injEq]
      refine ⟨hp 0, ih ys (by simpa using hl) fun i => hp (i + 1)⟩

theorem interestPhase_length :
    ∀ (idxs : List Nat) (debts : List DS) (a t : ℤ),
      (interestPhase idxs debts a t).1.length = debts.length := by
  intro idxs
  induction idxs with
  | nil => intro debts a t; rfl
  | cons j rest ih =>
    intro debts a t
    unfold interestPhase
    by_cases h1 : (debts.getD j default).balance ≤ 0
    · rw [if_pos h1]; exact ih debts a t
    · rw [if_neg h1]
      by_cases h2 : monthlyInterest (debts.getD j default) ≠ 0
      · rw [if_pos h2, ih]
        simp
      · rw [if_neg h2]; exact ih debts a t

theorem interestPhase_getD (f : DS → β)
    (hf : ∀ (d : DS) (b ip : ℤ),
      f { d with balance := b, interestPaid := ip } = f d) :
    ∀ (idxs : List Nat) (debts : List DS) (a t : ℤ) (i : Nat),
      f ((interestPhase idxs debts a t).1.getD i default) =
        f (debts.getD i default) := by
  intro idxs
  induction idxs with
  | nil => intro debts a t i; rfl
  | cons j rest ih =>
    intro debts a t i
    unfold interestPhase
    by_cases h1 : (debts.getD j default).balance ≤ 0
    · rw [if_pos h1]; exact ih debts a t i
    · rw [if_neg h1]
      by_cases h2 : monthlyInterest (debts.getD j default) ≠ 0
      · rw [if_pos h2, ih]
        rw [getD_set']
        by_cases h3 : i = j ∧ j < debts.length
        · rw [if_pos h3, h3.1, hf]
        · rw [if_neg h3]
      · rw [if_neg h2]; exact ih debts a t i

theorem minPaymentPhase_length :
    ∀ (idxs : List Nat) (debts : List DS) (p : PyDict ℤ ℤ) (s : ℤ),
      (minPaymentPhase idxs debts p s).1.length = debts.length := by
  intro idxs
  induction idxs with
  | nil => intro debts p s; rfl
  | cons j rest ih =>
    intro debts p s
    unfold minPaymentPhase
    by_cases h1 : (debts.getD j default).balance ≤ 0
    · rw [if_pos h1]; exact ih debts p s
    · rw [if_neg h1, ih]
      simp

theorem minPaymentPhase_getD (f : DS → β)
    (hf : ∀ (d : DS) (b : ℤ), f { d with balance := b } = f d) :
    ∀ (idxs : List Nat) (debts : List DS) (p : PyDict ℤ ℤ) (s : ℤ) (i : Nat),
      f ((minPaymentPhase idxs debts p s).1.getD i default) =
        f (debts.getD i default) := by
  intro idxs
  induction idxs with
  | nil => intro debts p s i; rfl
  | cons j rest ih =>
    intro debts p s i
    unfold minPaymentPhase
    by_cases h1 : (debts.getD j default).balance ≤ 0
    · rw [if_pos h1]; exact ih debts p s i
    · rw [if_neg h1, ih]
      rw [getD_set']
      by_cases h3 : i = j ∧ j < debts.length
      · rw [if_pos h3, h3.1, hf]
      · rw [if_neg h3]

theorem snowballPhase_length :
    ∀ (idxs : List Nat) (debts : List DS) (p : PyDict ℤ ℤ) (rem : ℤ),
      (snowballPhase idxs debts p rem).1.length = debts.length := by
  intro idxs
  induction idxs with
  | nil => intro debts p rem; rfl
  | cons j rest ih =>
    intro debts p rem
    unfold snowballPhase
    by_cases h0 : rem ≤ 0
    · rw [if_pos h0]
    · rw [if_neg h0]
      by_cases h1 : (debts.getD j default).balance ≤ 0
      · rw [if_pos h1]; exact ih debts p rem
      · rw [if_neg h1]
        by_cases h2 : min rem (debts.getD j default).balance ≤ 0
        · rw [if_pos h2]; exact ih debts p rem
        · rw [if_neg h2, ih]
          simp

theorem snowballPhase_getD (f : DS → β)
    (hf : ∀ (d : DS) (b : ℤ), f { d with balance := b } = f d) :
    ∀ (idxs : List Nat) (debts : List DS) (p : PyDict ℤ ℤ) (rem : ℤ) (i : Nat),
      f ((snowballPhase idxs debts p rem).1.getD i default) =
        f (debts.getD i default) := by
  intro idxs
  induction idxs with
  | nil => intro debts p rem i; rfl
  | cons j rest ih =>
    intro debts p rem i
    unfold snowballPhase
    by_cases h0 : rem ≤ 0
    · rw [if_pos h0]
    · rw [if_neg h0]
      by_cases h1 : (debts.getD j default).balance ≤ 0
      · rw [if_pos h1]; exact ih debts p rem i
      · rw [if_neg h1]
        by_cases h2 : min rem (debts.getD j default).balance ≤ 0
        · rw [if_pos h2]; exact ih debts p rem i
        · rw [if_neg h2, ih]
          rw [getD_set']
          by_cases h3 : i = j ∧ j < debts.length
          · rw [if_pos h3, h3.1, hf]
          · rw [if_neg h3]

theorem settlePhase_length (m : Nat) (bAI payF : PyDict ℤ ℤ) :
    ∀ (idxs : List Nat) (debts : List DS) (paid : List ℤ) (nf : ℤ),
      (settlePhase m bAI payF idxs debts paid nf).1.length = debts.length := by
  intro idxs
  induction idxs with
  | nil => intro debts paid nf; rfl
  | cons j rest ih =>
    intro debts paid nf
    unfold settlePhase
    by_cases h1 : dget bAI (debts.getD j default).id 0 -
        dget payF (debts.getD j default).id 0 ≤ 0
    · rw [if_pos h1]
      by_cases h2 : (debts.getD j default).id ∈ paid
      · rw [if_pos h2, ih]
        simp
      · rw [if_neg h2, ih]
        simp
    · rw [if_neg h1, ih]
      simp

theorem settlePhase_getD (f : DS → β)
    (hf1 : ∀ (d : DS) (b : ℤ), f { d with balance := b } = f d)
    (hf2 : ∀ (d : DS) (b : ℤ) (m' : Nat),
      f { d with balance := b, payoffMonthIndex := some m' } = f d)
    (m : Nat) (bAI payF : PyDict ℤ ℤ) :
    ∀ (idxs : List Nat) (debts : List DS) (paid : List ℤ) (nf : ℤ) (i : Nat),
      f ((settlePhase m bAI payF idxs debts paid nf).1.getD i default) =
        f (debts.getD i default) := by
  intro idxs
  induction idxs with
  | nil => intro debts paid nf i; rfl
  | cons j rest ih =>
    intro debts paid nf i
    unfold settlePhase
    by_cases h1 : dget bAI (debts.getD j default).id 0 -
        dget payF (debts.getD j default).id 0 ≤ 0
    · rw [if_pos h1]
      by_cases h2 : (debts.getD j default).id ∈ paid
      · rw [if_pos h2, ih, getD_set']
        by_cases h3 : i = j ∧ j < debts.length
        · rw [if_pos h3, h3.1, hf1]
        · rw [if_neg h3]
      · rw [if_neg h2, ih, getD_set']
        by_cases h3 : i = j ∧ j < debts.length
        · rw [if_pos h3, h3.1, hf2]
        · rw [if_neg h3]
    · rw [if_neg h1, ih, getD_set']
      by_cases h3 : i = j ∧ j < debts.length
      · rw [if_pos h3, h3.1, hf1]
      · rw [if_neg h3]

/-! ## Dictionaries built from the debt list -/

theorem dmem_append [DecidableEq α] (a b : PyDict α β) (k : α) :
    dmem (a ++ b) k = (dmem a k || dmem b k) := by
  induction a with
  | nil => simp [dmem, dfind]
  | cons p rest ih =>
    obtain ⟨k', v'⟩ := p
    by_cases h : k' = k
    · simp [dmem, dfind, h]
    · simp only [List.cons_append, dmem, dfind, if_neg h] at *
      exact ih

/-- Folding `d[x.id] = f x` over a list with fresh, distinct ids appends
the corresponding association list. -/
theorem fold_dinsert_eq_append (f : DS → β) :
    ∀ (l : List DS) (acc : PyDict ℤ β),
      (∀ d ∈ l, dmem acc d.id = false) → (l.map DS.id).Nodup →
      l.foldl (fun acc d => dinsert d.id (f d) acc) acc =
        acc ++ l.map (fun d => (d.id, f d)) := by
  intro l
  induction l with
  | nil => intro acc _ _; simp
  | cons x xs ih =>
    intro acc hfresh hnd
    simp only [List.foldl_cons]
    rw [dinsert_of_not_mem (f x) (hfresh x (by simp))]
    rw [ih (acc ++ [(x.id, f x)]) ?_ (by simpa using hnd.of_cons)]
    · simp
    · intro d hd
      rw [dmem_append]
      have h1 : dmem acc d.id = false := hfresh d (by simp [hd])
      have h2 : d.id ≠ x.id := by
        intro he
        have : x.id ∈ xs.map DS.id := by
          rw [← he]
          exact List.mem_map.mpr ⟨d, hd, rfl⟩
        exact (List.nodup_cons.mp (by simpa using hnd)).1 this
      have hnone : dfind acc d.id = none := by
        rcases hfind : dfind acc d.id with _ | v
        · rfl
        · rw [dmem, hfind] at h1
          simp at h1
      have h2' : ¬x.id = d.id := fun he => h2 he.symm
      simp [hnone, dmem, dfind, h2']

theorem dfind_map_assoc (f : DS → β) :
    ∀ (l : List DS), (l.map DS.id).Nodup → ∀ d ∈ l,
      dfind (l.map fun x => (x.id, f x)) d.id = some (f d) := by
  intro l
  induction l with
  | nil => intro _ d hd; simp at hd
  | cons x xs ih =>
    intro hnd d hd
    rcases List.mem_cons.mp hd with rfl | hd'
    · simp [dfind]
    · have hne : x.id ≠ d.id := by
        intro he
        have : x.id ∈ xs.map DS.id := by
          rw [he]
          exact List.mem_map.mpr ⟨d, hd', rfl⟩
        exact (List.nodup_cons.mp (by simpa using hnd)).1 this
      simp only [List.map_cons, dfind, if_neg hne]
      exact ih (by simpa using hnd.of_cons) d hd'

/-- The value of an id-keyed dictionary built from a duplicate-free debt
list. -/
theorem dfind_build (f : DS → β) (l : List DS) (hnd : (l.map DS.id).Nodup)
    (d : DS) (hd : d ∈ l) :
    dfind (l.foldl (fun acc x => dinsert x.id (f x) acc) []) d.id = some (f d) := by
  rw [fold_dinsert_eq_append f l [] (by intro d _; rfl) hnd]
  simpa using dfind_map_assoc f l hnd d hd

theorem getD_mem' [Inhabited α] (l : List α) (i : Nat) (h : i < l.length) :
    l.getD i default ∈ l := by
  induction l generalizing i with
  | nil => simp at h
  | cons x xs ih =>
    cases i with
    | zero => simp [List.getD]
    | succ j =>
      have := ih j (by simpa using h)
      exact List.mem_cons.mpr (.inr this)

/-! ## The loop's iteration order -/

theorem orderedIdx_perm (s : Strategy) (l : List DS) :
    (orderedIdx s l).Perm (List.range l.length) := by
  unfold orderedIdx
  have h := List.perm_insertionSort (pairRel s) l.enum
  have h2 := h.map Prod.fst
  rwa [List.enum_map_fst] at h2

theorem orderedIdx_nodup (s : Strategy) (l : List DS) :
    (orderedIdx s l).Nodup :=
  (orderedIdx_perm s l).nodup_iff.mpr (List.nodup_range _)

theorem orderedIdx_mem (s : Strategy) (l : List DS) (i : Nat) :
    i ∈ orderedIdx s l ↔ i < l.length := by
  rw [(orderedIdx_perm s l).mem_iff, List.mem_range]

/-! ## The interest phase, positionally -/

theorem interestPhase_not_mem :
    ∀ (idxs : List Nat) (debts : List DS) (a t : ℤ) (i : Nat), i ∉ idxs →
      (interestPhase idxs debts a t).1.getD i default = debts.getD i default := by
  intro idxs
  induction idxs with
  | nil => intro debts a t i _; rfl
  | cons j rest ih =>
    intro debts a t i hi
    have hij : i ≠ j := fun h => hi (h ▸ List.mem_cons_self j rest)
    have hrest : i ∉ rest := fun h => hi (List.mem_cons.mpr (.inr h))
    unfold interestPhase
    by_cases h1 : (debts.getD j default).balance ≤ 0
    · rw [if_pos h1]; exact ih debts a t i hrest
    · rw [if_neg h1]
      by_cases h2 : monthlyInterest (debts.getD j default) ≠ 0
      · rw [if_pos h2, ih _ _ _ i hrest, getD_set_ne' _ _ hij]
      · rw [if_neg h2]; exact ih debts a t i hrest

/-- A debt rewritten with unchanged balance and cumulative interest is
itself. -/
theorem ds_eta (d : DS) :
    ({ d with balance := d.balance + 0, interestPaid := d.interestPaid + 0 } : DS)
      = d := by
  cases d
  simp

theorem interestPhase_mem :
    ∀ (idxs : List Nat), idxs.Nodup →
      ∀ (debts : List DS) (a t : ℤ) (i : Nat), i ∈ idxs → i < debts.length →
      (interestPhase idxs debts a t).1.getD i default =
        { debts.getD i default with
          balance := (debts.getD i default).balance +
            interestOn (debts.getD i default).balance (debts.getD i default).apr,
          interestPaid := (debts.getD i default).interestPaid +
            interestOn (debts.getD i default).balance (debts.getD i default).apr } := by
  intro idxs
  induction idxs with
  | nil => intro _ debts a t i hi; simp at hi
  | cons j rest ih =>
    intro hnd debts a t i hi hlen
    rcases List.mem_cons.mp hi with rfl | hrest
    · have hout : i ∉ rest := (List.nodup_cons.mp hnd).1
      unfold interestPhase
      by_cases h1 : (debts.getD i default).balance ≤ 0
      · rw [if_pos h1, interestPhase_not_mem rest debts a t i hout]
        have : interestOn (debts.getD i default).balance
            (debts.getD i default).apr = 0 := by
          unfold interestOn
          rw [if_neg (by omega)]
        rw [this, ds_eta]
      · rw [if_neg h1]
        have hio : interestOn (debts.getD i default).balance
            (debts.getD i default).apr = monthlyInterest (debts.getD i default) := by
          unfold interestOn monthlyInterest
          rw [if_pos (by omega)]
        by_cases h2 : monthlyInterest (debts.getD i default) ≠ 0
        · rw [if_pos h2, interestPhase_not_mem rest _ _ _ i hout,
            getD_set_self' _ _ _ hlen, hio]
        · rw [if_neg h2]
          rw [interestPhase_not_mem rest debts a t i hout]
          have h2' : monthlyInterest (debts.getD i default) = 0 := by
            by_contra hc
            exact h2 hc
          rw [hio, h2', ds_eta]
    · have hij : i ≠ j := by
        intro he
        subst he
        exact (List.nodup_cons.mp hnd).1 hrest
      unfold interestPhase
      by_cases h1 : (debts.getD j default).balance ≤ 0
      · rw [if_pos h1]
        exact ih (List.nodup_cons.mp hnd).2 debts a t i hrest hlen
      · rw [if_neg h1]
        by_cases h2 : monthlyInterest (debts.getD j default) ≠ 0
        · rw [if_pos h2]
          rw [ih (List.nodup_cons.mp hnd).2 _ _ _ i hrest (by simpa using hlen)]
          rw [getD_set_ne' _ _ hij]
        · rw [if_neg h2]
          exact ih (List.nodup_cons.mp hnd).2 debts a t i hrest hlen

/-! ## C8: payment overrides are capped at the post-interest balance -/

theorem minPaymentPhase_dmem :
    ∀ (idxs : List Nat) (debts : List DS) (p : PyDict ℤ ℤ) (s : ℤ) (k : ℤ),
      dmem p k = true → dmem (minPaymentPhase idxs debts p s).2.1 k = true := by
  intro idxs
  induction idxs with
  | nil => intro debts p s k h; exact h
  | cons j rest ih =>
    intro debts p s k h
    unfold minPaymentPhase
    by_cases h1 : (debts.getD j default).balance ≤ 0
    · rw [if_pos h1]; exact ih debts p s k h
    · rw [if_neg h1]
      refine ih _ _ _ k ?_
      rw [dmem_daddTo]
      simp [h]

theorem snowballPhase_dmem :
    ∀ (idxs : List Nat) (debts : List DS) (p : PyDict ℤ ℤ) (rem : ℤ) (k : ℤ),
      dmem p k = true → dmem (snowballPhase idxs debts p rem).2.1 k = true := by
  intro idxs
  induction idxs with
  | nil => intro debts p rem k h; exact h
  | cons j rest ih =>
    intro debts p rem k h
    unfold snowballPhase
    by_cases h0 : rem ≤ 0
    · rw [if_pos h0]; exact h
    · rw [if_neg h0]
      by_cases h1 : (debts.getD j default).balance ≤ 0
      · rw [if_pos h1]; exact ih debts p rem k h
      · rw [if_neg h1]
        by_cases h2 : min rem (debts.getD j default).balance ≤ 0
        · rw [if_pos h2]; exact ih debts p rem k h
        · rw [if_neg h2]
          refine ih _ _ _ k ?_
          rw [dmem_daddTo]
          simp [h]

theorem overridePhase_dfind_not_mem (bAI : PyDict ℤ ℤ) :
    ∀ (items : List (ℤ × ℤ)) (final : PyDict ℤ ℤ) (w : List Warning) (k : ℤ),
      k ∉ items.map Prod.fst →
      dfind (overridePhase bAI items final w).1 k = dfind final k := by
  intro items
  induction items with
  | nil => intro final w k _; rfl
  | cons p rest ih =>
    obtain ⟨k', v'⟩ := p
    intro final w k hk
    have hne : k ≠ k' := fun h => hk (by simp [h])
    have hrest : k ∉ rest.map Prod.fst := fun h => hk (by simp [h])
    unfold overridePhase
    by_cases h1 : dmem final k' = true
    · rw [if_pos h1, ih _ _ k hrest, dfind_dinsert_ne _ _ hne]
    · rw [if_neg h1]
      exact ih _ _ k hrest

theorem overridePhase_warnings_mono (bAI : PyDict ℤ ℤ) :
    ∀ (items : List (ℤ × ℤ)) (final : PyDict ℤ ℤ) (w : List Warning),
      ∃ w', (overridePhase bAI items final w).2 = w ++ w' := by
  intro items
  induction items with
  | nil => intro final w; exact ⟨[], by simp [overridePhase]⟩
  | cons p rest ih =>
    obtain ⟨k', v'⟩ := p
    intro final w
    unfold overridePhase
    by_cases h1 : dmem final k' = true
    · rw [if_pos h1]
      by_cases h2 : dget bAI k' 0 < v'
      · rw [if_pos h2]
        rcases ih (dinsert k' (min (dget bAI k' 0) v') final)
            (w ++ [.overrideCapped k']) with ⟨w', hw⟩
        exact ⟨.overrideCapped k' :: w', by simp [hw]⟩
      · rw [if_neg h2]
        exact ih _ w
    · rw [if_neg h1]
      exact ih _ w

theorem overridePhase_spec (bAI : PyDict ℤ ℤ) :
    ∀ (items : List (ℤ × ℤ)) (final : PyDict ℤ ℤ) (w : List Warning)
      (k amt : ℤ),
      (items.map Prod.fst).Nodup → (k, amt) ∈ items → dmem final k = true →
      dfind (overridePhase bAI items final w).1 k =
        some (min (dget bAI k 0) amt) ∧
      (dget bAI k 0 < amt →
        Warning.overrideCapped k ∈ (overridePhase bAI items final w).2) := by
  intro items
  induction items with
  | nil => intro final w k amt _ hk _; simp at hk
  | cons p rest ih =>
    obtain ⟨k', v'⟩ := p
    intro final w k amt hnd hk hmem
    rcases List.mem_cons.mp hk with heq | hrest
    · injection heq with ha hb
      subst ha
      subst hb
      have hout : k ∉ rest.map Prod.fst := by
        have h := hnd
        simp only [List.map_cons, List.nodup_cons] at h
        exact h.1
      unfold overridePhase
      rw [if_pos hmem]
      constructor
      · rw [overridePhase_dfind_not_mem bAI rest _ _ k hout,
          dfind_dinsert_self]
      · intro hcap
        rw [if_pos hcap]
        rcases overridePhase_warnings_mono bAI rest
            (dinsert k (min (dget bAI k 0) amt) final)
            (w ++ [.overrideCapped k]) with ⟨w', hw⟩
        rw [hw]
        simp
    · have hkne : k' ≠ k := by
        intro he
        subst he
        have : k' ∈ rest.map Prod.fst := List.mem_map.mpr ⟨(k', amt), hrest, rfl⟩
        exact (List.nodup_cons.mp (by simpa using hnd)).1 this
      have hndr : (rest.map Prod.fst).Nodup :=
        (List.nodup_cons.mp (by simpa using hnd)).2
      unfold overridePhase
      by_cases h1 : dmem final k' = true
      · rw [if_pos h1]
        refine ih _ _ k amt hndr hrest ?_
        rw [dmem_dinsert]
        simp [hmem]
      · rw [if_neg h1]
        exact ih _ _ k amt hndr hrest hmem

theorem dfind_some_mem [DecidableEq α] :
    ∀ (d : PyDict α β) (k : α) (v : β), dfind d k = some v → (k, v) ∈ d := by
  intro d
  induction d with
  | nil => intro k v h; simp [dfind] at h
  | cons p rest ih =>
    obtain ⟨k', v'⟩ := p
    intro k v h
    unfold dfind at h
    by_cases he : k' = k
    · rw [if_pos he] at h
      simp only [Option.some.injEq] at h
      subst he
      subst h
      simp
    · rw [if_neg he] at h
      exact List.mem_cons.mpr (.inr (ih k v h))

/-! Lengths and ids through the phases of a month. -/

theorem monthInterest_length (strat : Strategy) (st : SimState) :
    (monthInterest strat st).1.length = st.debts.length :=
  interestPhase_length _ _ _ _

theorem monthMin_length (strat : Strategy) (st : SimState) :
    (monthMin strat st).1.length = st.debts.length := by
  unfold monthMin
  rw [minPaymentPhase_length, monthInterest_length]

theorem monthSnow_length (strat : Strategy) (schedMap : PyDict Nat ℤ)
    (snow : ℤ) (m : Nat) (st : SimState) :
    (monthSnow strat schedMap snow m st).1.length = st.debts.length := by
  unfold monthSnow
  rw [snowballPhase_length]
  exact monthMin_length strat st

theorem monthSettle_length (strat : Strategy) (schedMap : PyDict Nat ℤ)
    (povMap : PyDict Nat (PyDict ℤ ℤ)) (snow : ℤ) (m : Nat) (st : SimState) :
    (monthSettle strat schedMap povMap snow m st).1.length = st.debts.length := by
  unfold monthSettle
  rw [settlePhase_length]
  exact monthSnow_length strat schedMap snow m st

theorem monthInterest_getD_id (strat : Strategy) (st : SimState) (i : Nat) :
    ((monthInterest strat st).1.getD i default).id =
      (st.debts.getD i default).id :=
  interestPhase_getD DS.id (fun _ _ _ => rfl) _ _ _ _ i

theorem monthMin_getD_id (strat : Strategy) (st : SimState) (i : Nat) :
    ((monthMin strat st).1.getD i default).id = (st.debts.getD i default).id := by
  unfold monthMin
  rw [minPaymentPhase_getD DS.id (fun _ _ => rfl)]
  exact monthInterest_getD_id strat st i

theorem monthSnow_getD_id (strat : Strategy) (schedMap : PyDict Nat ℤ)
    (snow : ℤ) (m : Nat) (st : SimState) (i : Nat) :
    ((monthSnow strat schedMap snow m st).1.getD i default).id =
      (st.debts.getD i default).id := by
  unfold monthSnow
  rw [snowballPhase_getD DS.id (fun _ _ => rfl)]
  exact monthMin_getD_id strat st i

theorem monthSnow_map_id (strat : Strategy) (schedMap : PyDict Nat ℤ)
    (snow : ℤ) (m : Nat) (st : SimState) :
    (monthSnow strat schedMap snow m st).1.map DS.id = st.debts.map DS.id :=
  map_eq_of_getD DS.id _ _
    (by rw [monthSnow_length])
    (fun i => monthSnow_getD_id strat schedMap snow m st i)

theorem monthInterest_map_id (strat : Strategy) (st : SimState) :
    (monthInterest strat st).1.map DS.id = st.debts.map DS.id :=
  map_eq_of_getD DS.id _ _
    (by rw [monthInterest_length])
    (fun i => monthInterest_getD_id strat st i)

/-- The month's zero-initialized payments dictionary contains every debt id. -/
theorem monthPayments0_dmem (st : SimState)
    (hnd : (st.debts.map DS.id).Nodup) (d : DS) (hd : d ∈ st.debts) :
    dmem (monthPayments0 st) d.id = true := by
  unfold monthPayments0
  rw [dmem, dfind_build (fun _ => (0 : ℤ)) st.debts hnd d hd]
  rfl

/-- Default payments contain a key for every debt id. -/
theorem monthSnow_dmem (strat : Strategy) (schedMap : PyDict Nat ℤ)
    (snow : ℤ) (m : Nat) (st : SimState)
    (hnd : (st.debts.map DS.id).Nodup) (d : DS) (hd : d ∈ st.debts) :
    dmem (monthSnow strat schedMap snow m st).2.1 d.id = true := by
  unfold monthSnow
  refine snowballPhase_dmem _ _ _ _ _ ?_
  unfold monthMin
  refine minPaymentPhase_dmem _ _ _ _ _ ?_
  exact monthPayments0_dmem st hnd d hd

/-- The post-interest balance of debt `i`, as recorded in
`balances_after_interest`. -/
theorem monthBAI_dget (strat : Strategy) (st : SimState)
    (hnd : (st.debts.map DS.id).Nodup) (i : Nat) (hi : i < st.debts.length) :
    dget (monthBAI strat st) (st.debts.getD i default).id 0 =
      (st.debts.getD i default).balance +
        interestOn (st.debts.getD i default).balance
          (st.debts.getD i default).apr := by
  unfold monthBAI buildBalancesDict
  have hnd1 : ((monthInterest strat st).1.map DS.id).Nodup := by
    rw [monthInterest_map_id]; exact hnd
  have hi1 : i < (monthInterest strat st).1.length := by
    rw [monthInterest_length]; exact hi
  have hmem : (monthInterest strat st).1.getD i default ∈ (monthInterest strat st).1 :=
    getD_mem' _ i hi1
  have h := dfind_build DS.balance (monthInterest strat st).1 hnd1 _ hmem
  have hid : ((monthInterest strat st).1.getD i default).id =
      (st.debts.getD i default).id := monthInterest_getD_id strat st i
  rw [hid] at h
  rw [dget, h]
  have hbal : (monthInterest strat st).1.getD i default =
      { st.debts.getD i default with
        balance := (st.debts.getD i default).balance +
          interestOn (st.debts.getD i default).balance
            (st.debts.getD i default).apr,
        interestPaid := (st.debts.getD i default).interestPaid +
          interestOn (st.debts.getD i default).balance
            (st.debts.getD i default).apr } := by
    unfold monthInterest
    exact interestPhase_mem (monthIdxs strat st) (orderedIdx_nodup strat st.debts)
      st.debts 0 st.totalInterest i
      ((orderedIdx_mem strat st.debts i).mpr hi) hi
  rw [hbal]
  rfl

/-- The final payment of a debt, when an override is registered. -/
theorem monthPayFinal_dget_override (strat : Strategy) (schedMap : PyDict Nat ℤ)
    (povMap : PyDict Nat (PyDict ℤ ℤ)) (snow : ℤ) (m : Nat) (st : SimState)
    (i : Nat) (hnd : (st.debts.map DS.id).Nodup) (hi : i < st.debts.length)
    (amt : ℤ)
    (hov : dfind (dget povMap m []) (st.debts.getD i default).id = some amt)
    (hkeys : ((dget povMap m []).map Prod.fst).Nodup) :
    dget (monthPayFinal strat schedMap povMap snow m st)
        (st.debts.getD i default).id 0 =
      min (dget (monthBAI strat st) (st.debts.getD i default).id 0) amt ∧
    (dget (monthBAI strat st) (st.debts.getD i default).id 0 < amt →
      Warning.overrideCapped (st.debts.getD i default).id ∈
        (monthOverride strat schedMap povMap snow m st).2) := by
  have hd : st.debts.getD i default ∈ st.debts := getD_mem' _ i hi
  have hmem : dmem (monthSnow strat schedMap snow m st).2.1
      (st.debts.getD i default).id = true :=
    monthSnow_dmem strat schedMap snow m st hnd _ hd
  have hitem : ((st.debts.getD i default).id, amt) ∈ dget povMap m [] :=
    dfind_some_mem _ _ _ hov
  have hspec := overridePhase_spec (monthBAI strat st) (dget povMap m [])
    (monthSnow strat schedMap snow m st).2.1 [] _ amt hkeys hitem hmem
  constructor
  · unfold monthPayFinal
    have hnd3 : ((monthSnow strat schedMap snow m st).1.map DS.id).Nodup := by
      rw [monthSnow_map_id]; exact hnd
    have hi3 : i < (monthSnow strat schedMap snow m st).1.length := by
      rw [monthSnow_length]; exact hi
    have hmem3 : (monthSnow strat schedMap snow m st).1.getD i default ∈
        (monthSnow strat schedMap snow m st).1 := getD_mem' _ i hi3
    have hb := dfind_build
      (fun d => dget (monthOverride strat schedMap povMap snow m st).1 d.id 0)
      (monthSnow strat schedMap snow m st).1 hnd3 _ hmem3
    have hid3 : ((monthSnow strat schedMap snow m st).1.getD i default).id =
        (st.debts.getD i default).id := monthSnow_getD_id strat schedMap snow m st i
    rw [hid3] at hb
    rw [dget, hb]
    simp only [Option.getD_some]
    rw [hid3]
    show dget (monthOverride strat schedMap povMap snow m st).1
        (st.debts.getD i default).id 0 = _
    unfold monthOverride
    rw [dget, hspec.1]
    rfl
  · intro hlt
    exact hspec.2 hlt

/-- Warnings produced by the override phase survive into the month's
warnings. -/
theorem monthWarnings_of_override (strat : Strategy) (schedMap : PyDict Nat ℤ)
    (povMap : PyDict Nat (PyDict ℤ ℤ)) (snow : ℤ) (m : Nat) (st : SimState)
    (w : Warning) (hw : w ∈ (monthOverride strat schedMap povMap snow m st).2) :
    w ∈ monthWarnings strat schedMap povMap snow m st := by
  unfold monthWarnings
  by_cases h1 : dvaluesSum (monthSnow strat schedMap snow m st).2.1 <
      dvaluesSum (monthOverride strat schedMap povMap snow m st).1
  · rw [if_pos h1]
    exact List.mem_append.mpr (.inl hw)
  · rw [if_neg h1]
    by_cases h2 : dvaluesSum (monthOverride strat schedMap povMap snow m st).1 <
        dvaluesSum (monthSnow strat schedMap snow m st).2.1
    · rw [if_pos h2]
      exact List.mem_append.mpr (.inl hw)
    · rw [if_neg h2]
      exact hw

/-- C8: when a payment override of amount `amt` is registered for this
month and debt, the debt's final payment is `min(amt, post-interest balance
ceiling)`, and whenever `amt` exceeds the ceiling a capping warning is
present in that month's record. -/
theorem payment_override_capping (strat : Strategy) (schedMap : PyDict Nat ℤ)
    (povMap : PyDict Nat (PyDict ℤ ℤ)) (snow : ℤ) (bd : Date) (m : Nat)
    (st : SimState) (i : Nat)
    (hnd : (st.debts.map DS.id).Nodup) (hi : i < st.debts.length) (amt : ℤ)
    (hov : dfind (dget povMap m []) (st.debts.getD i default).id = some amt)
    (hkeys : ((dget povMap m []).map Prod.fst).Nodup) :
    dget (stepMonthT strat schedMap povMap snow bd m st).1.payments
        (st.debts.getD i default).id 0 =
      min ((st.debts.getD i default).balance +
        interestOn (st.debts.getD i default).balance
          (st.debts.getD i default).apr) amt ∧
    ((st.debts.getD i default).balance +
        interestOn (st.debts.getD i default).balance
          (st.debts.getD i default).apr < amt →
      Warning.overrideCapped (st.debts.getD i default).id ∈
        (stepMonthT strat schedMap povMap snow bd m st).1.warnings) := by
  have hbai := monthBAI_dget strat st hnd i hi
  have hmain := monthPayFinal_dget_override strat schedMap povMap snow m st i
    hnd hi amt hov hkeys
  constructor
  · show dget (monthPayFinal strat schedMap povMap snow m st) _ 0 = _
    rw [hmain.1, hbai]
  · intro hlt
    show Warning.overrideCapped _ ∈ monthWarnings strat schedMap povMap snow m st
    refine monthWarnings_of_override strat schedMap povMap snow m st _ ?_
    refine hmain.2 ?_
    rw [hbai]
    exact hlt

/-- Witness for C8: the test scenario — debt 1 has post-interest balance
101.00 in month 1 and an override of 150.00; its final payment is 101.00
(the ceiling) and the capping warning is present. -/
theorem payment_override_capping_witness :
    dget (stepMonthT .avalanche [] (buildPovMap [capOverride]) 12500 ⟨2024, 1, 1⟩ 1
        ⟨initialStates debtsHand, 0, 0, []⟩).1.payments 1 0 = 10100 ∧
    Warning.overrideCapped 1 ∈
      (stepMonthT .avalanche [] (buildPovMap [capOverride]) 12500 ⟨2024, 1, 1⟩ 1
        ⟨initialStates debtsHand, 0, 0, []⟩).1.warnings := by
  have h := payment_override_capping .avalanche [] (buildPovMap [capOverride])
    12500 ⟨2024, 1, 1⟩ 1 ⟨initialStates debtsHand, 0, 0, []⟩ 0
    (by decide) (by decide) 15000 (by decide) (by decide)
  constructor
  · exact h.1
  · exact h.2 (by decide)

/-! ## C6: default payments never exceed minimums plus the pool -/

theorem dinsert_values [DecidableEq α] (k : α) (v : β) :
    ∀ (d : PyDict α β) (p : α × β), p ∈ dinsert k v d → p.2 = v ∨ p ∈ d := by
  intro d
  induction d with
  | nil =>
    intro p hp
    simp only [dinsert, List.mem_singleton] at hp
    exact .inl (by rw [hp])
  | cons q rest ih =>
    obtain ⟨k', v'⟩ := q
    intro p hp
    unfold dinsert at hp
    by_cases he : k' = k
    · rw [if_pos he] at hp
      rcases List.mem_cons.mp hp with rfl | hp'
      · exact .inl rfl
      · exact .inr (List.mem_cons.mpr (.inr hp'))
    · rw [if_neg he] at hp
      rcases List.mem_cons.mp hp with rfl | hp'
      · exact .inr (List.mem_cons.mpr (.inl rfl))
      · rcases ih p hp' with h | h
        · exact .inl h
        · exact .inr (List.mem_cons.mpr (.inr h))

theorem dget_nonneg [DecidableEq α] (d : PyDict α ℤ)
    (h : ∀ p ∈ d, 0 ≤ p.2) (k : α) : 0 ≤ dget d k 0 := by
  rcases hfind : dfind d k with _ | v
  · simp [dget, hfind]
  · have := h (k, v) (dfind_some_mem d k v hfind)
    simpa [dget, hfind] using this

theorem buildSchedMap_values_nonneg (so : List ScheduleOverride)
    (h : ∀ o ∈ so, 0 ≤ o.additionalAmount) :
    ∀ p ∈ buildSchedMap so, 0 ≤ p.2 := by
  unfold buildSchedMap
  have hgen : ∀ (l : List ScheduleOverride) (acc : PyDict Nat ℤ),
      (∀ o ∈ l, 0 ≤ o.additionalAmount) → (∀ p ∈ acc, 0 ≤ p.2) →
      ∀ p ∈ l.foldl (fun acc o => dinsert o.monthIndex o.additionalAmount acc) acc,
        0 ≤ p.2 := by
    intro l
    induction l with
    | nil => intro acc _ hacc p hp; exact hacc p hp
    | cons o rest ih =>
      intro acc hl hacc p hp
      refine ih _ (fun o' ho' => hl o' (by simp [ho'])) ?_ p hp
      intro q hq
      rcases dinsert_values _ _ acc q hq with h1 | h1
      · rw [h1]; exact hl o (by simp)
      · exact hacc q h1
  exact hgen so [] h (by simp)

theorem dvaluesSum_zero_of_all_zero (d : PyDict α ℤ)
    (h : ∀ p ∈ d, p.2 = 0) : dvaluesSum d = 0 := by
  induction d with
  | nil => rfl
  | cons q rest ih =>
    unfold dvaluesSum at *
    simp only [List.map_cons, List.sum_cons]
    rw [h q (by simp), ih fun p hp => h p (by simp [hp])]
    ring

theorem monthPayments0_sum (st : SimState) : dvaluesSum (monthPayments0 st) = 0 := by
  refine dvaluesSum_zero_of_all_zero _ ?_
  unfold monthPayments0
  have hgen : ∀ (l : List DS) (acc : PyDict ℤ ℤ), (∀ p ∈ acc, p.2 = 0) →
      ∀ p ∈ l.foldl (fun acc d => dinsert d.id 0 acc) acc, p.2 = 0 := by
    intro l
    induction l with
    | nil => intro acc hacc p hp; exact hacc p hp
    | cons x xs ih =>
      intro acc hacc p hp
      refine ih _ ?_ p hp
      intro q hq
      rcases dinsert_values _ _ acc q hq with h1 | h1
      · exact h1
      · exact hacc q h1
  exact hgen st.debts [] (by simp)

/-- The minimum-payment phase pays and banks (as surplus) at most the sum
of the visited debts' minimum payments. -/
theorem minPaymentPhase_sum :
    ∀ (idxs : List Nat) (debts : List DS) (p : PyDict ℤ ℤ) (s : ℤ),
      (∀ i, 0 ≤ (debts.getD i default).minimumPayment) →
      dvaluesSum (minPaymentPhase idxs debts p s).2.1 +
          (minPaymentPhase idxs debts p s).2.2 ≤
        dvaluesSum p + s +
          (idxs.map fun i => (debts.getD i default).minimumPayment).sum := by
  intro idxs
  induction idxs with
  | nil => intro debts p s _; simp [minPaymentPhase]
  | cons j rest ih =>
    intro debts p s hmin
    unfold minPaymentPhase
    by_cases h1 : (debts.getD j default).balance ≤ 0
    · rw [if_pos h1]
      have := ih debts p s hmin
      have hj : 0 ≤ (debts.getD j default).minimumPayment := hmin j
      simp only [List.map_cons, List.sum_cons]
      omega
    · rw [if_neg h1]
      have hpt : ∀ i,
          (((debts.set j
            { debts.getD j default with
              balance := if (debts.getD j default).balance -
                  min (debts.getD j default).minimumPayment
                    (debts.getD j default).balance ≤ 0 then 0
                else (debts.getD j default).balance -
                  min (debts.getD j default).minimumPayment
                    (debts.getD j default).balance }).getD i
              default).minimumPayment) =
          (debts.getD i default).minimumPayment := by
        intro i
        rw [getD_set']
        by_cases hc : i = j ∧ j < debts.length
        · rw [if_pos hc, hc.1]
        · rw [if_neg hc]
      refine le_trans (ih _ _ _ ?_) ?_
      · intro i
        rw [hpt i]
        exact hmin i
      · rw [dvaluesSum_daddTo]
        have hmap : (rest.map fun i =>
            (((debts.set j
              { debts.getD j default with
                balance := if (debts.getD j default).balance -
                    min (debts.getD j default).minimumPayment
                      (debts.getD j default).balance ≤ 0 then 0
                  else (debts.getD j default).balance -
                    min (debts.getD j default).minimumPayment
                      (debts.getD j default).balance }).getD i
                default).minimumPayment)) =
            rest.map fun i => (debts.getD i default).minimumPayment := by
          have := funext hpt
          rw [this]
        rw [hmap]
        have hacct : min (debts.getD j default).minimumPayment
              (debts.getD j default).balance +
            (if min (debts.getD j default).minimumPayment
                (debts.getD j default).balance <
                (debts.getD j default).minimumPayment then
              s + ((debts.getD j default).minimumPayment -
                min (debts.getD j default).minimumPayment
                  (debts.getD j default).balance)
            else s) = s + (debts.getD j default).minimumPayment := by
          by_cases hc : min (debts.getD j default).minimumPayment
              (debts.getD j default).balance <
              (debts.getD j default).minimumPayment
          · rw [if_pos hc]; ring
          · rw [if_neg hc]
            have h1' : min (debts.getD j default).minimumPayment
                (debts.getD j default).balance ≤
                (debts.getD j default).minimumPayment := min_le_left _ _
            have heq : min (debts.getD j default).minimumPayment
                (debts.getD j default).balance =
                (debts.getD j default).minimumPayment :=
              le_antisymm h1' (not_lt.mp hc)
            rw [heq]; ring
        simp only [List.map_cons, List.sum_cons]
        omega

theorem minPaymentPhase_surplus_nonneg :
    ∀ (idxs : List Nat) (debts : List DS) (p : PyDict ℤ ℤ) (s : ℤ),
      0 ≤ s → 0 ≤ (minPaymentPhase idxs debts p s).2.2 := by
  intro idxs
  induction idxs with
  | nil => intro debts p s h; exact h
  | cons j rest ih =>
    intro debts p s h
    unfold minPaymentPhase
    by_cases h1 : (debts.getD j default).balance ≤ 0
    · rw [if_pos h1]; exact ih debts p s h
    · rw [if_neg h1]
      refine ih _ _ _ ?_
      by_cases hc : min (debts.getD j default).minimumPayment
          (debts.getD j default).balance < (debts.getD j default).minimumPayment
      · rw [if_pos hc]
        have : min (debts.getD j default).minimumPayment
            (debts.getD j default).balance ≤
            (debts.getD j default).minimumPayment := min_le_left _ _
        omega
      · rw [if_neg hc]; exact h

/-- The snowball phase pays out at most the remaining pool. -/
theorem snowballPhase_sum :
    ∀ (idxs : List Nat) (debts : List DS) (p : PyDict ℤ ℤ) (rem : ℤ),
      dvaluesSum (snowballPhase idxs debts p rem).2.1 ≤
        dvaluesSum p + max 0 rem := by
  intro idxs
  induction idxs with
  | nil => intro debts p rem; simp [snowballPhase, le_max_iff]
  | cons j rest ih =>
    intro debts p rem
    unfold snowballPhase
    by_cases h0 : rem ≤ 0
    · rw [if_pos h0]
      simp [le_max_iff]
    · rw [if_neg h0]
      by_cases h1 : (debts.getD j default).balance ≤ 0
      · rw [if_pos h1]; exact ih debts p rem
      · rw [if_neg h1]
        by_cases h2 : min rem (debts.getD j default).balance ≤ 0
        · rw [if_pos h2]; exact ih debts p rem
        · rw [if_neg h2]
          refine le_trans (ih _ _ _) ?_
          rw [dvaluesSum_daddTo]
          have hple : min rem (debts.getD j default).balance ≤ rem :=
            min_le_left _ _
          have hppos : 0 < min rem (debts.getD j default).balance :=
            not_le.mp h2
          have hm1 : max 0 (rem - min rem (debts.getD j default).balance) =
              rem - min rem (debts.getD j default).balance := by omega
          have hm2 : max 0 rem = rem := by omega
          rw [hm1, hm2]
          omega

/-- Sum over all positions is the sum over the list. -/
theorem map_getD_range (l : List DS) (f : DS → ℤ) :
    ((List.range l.length).map fun i => f (l.getD i default)).sum =
      (l.map f).sum := by
  induction l with
  | nil => simp
  | cons d rest ih =>
    rw [List.length_cons, List.range_succ_eq_map]
    simp only [List.map_cons, List.map_map, List.sum_cons,
      List.getD_cons_zero, List.getD_cons_succ]
    have hfun : ((fun i => f ((d :: rest).getD i default)) ∘ Nat.succ) =
        fun i => f (rest.getD i default) := by
      funext i; rfl
    rw [hfun, ih]

/-- Per-month bound: the snowball phase's payment dictionary (the month's
`default_payments`) sums to at most the state's minimum-payment sum plus
the month's available pool, provided minimum payments are nonnegative and
the pool is nonnegative. -/
theorem stepMonth_default_bound (strat : Strategy) (schedMap : PyDict Nat ℤ)
    (snow : ℤ) (m : Nat) (st : SimState)
    (hmin : ∀ i, 0 ≤ (st.debts.getD i default).minimumPayment)
    (hpool : 0 ≤ monthPool schedMap snow m st) :
    dvaluesSum (monthSnow strat schedMap snow m st).2.1 ≤
      (st.debts.map DS.minimumPayment).sum + monthPool schedMap snow m st := by
  have hminAI : ∀ i,
      0 ≤ ((monthInterest strat st).1.getD i default).minimumPayment := by
    intro i
    have h1 := interestPhase_getD DS.minimumPayment (fun d b ip => rfl)
      (monthIdxs strat st) st.debts 0 st.totalInterest i
    exact le_of_le_of_eq (hmin i) h1.symm
  have hsur : 0 ≤ (monthMin strat st).2.2 :=
    minPaymentPhase_surplus_nonneg (monthIdxs strat st) (monthInterest strat st).1
      (monthPayments0 st) 0 le_rfl
  have hmp : dvaluesSum (monthMin strat st).2.1 + (monthMin strat st).2.2 ≤
      dvaluesSum (monthPayments0 st) + 0 +
        ((monthIdxs strat st).map fun i =>
          ((monthInterest strat st).1.getD i default).minimumPayment).sum :=
    minPaymentPhase_sum (monthIdxs strat st) (monthInterest strat st).1
      (monthPayments0 st) 0 hminAI
  rw [monthPayments0_sum st] at hmp
  have hfun : (fun i => ((monthInterest strat st).1.getD i default).minimumPayment) =
      fun i => (st.debts.getD i default).minimumPayment := by
    funext i
    exact interestPhase_getD DS.minimumPayment (fun d b ip => rfl)
      (monthIdxs strat st) st.debts 0 st.totalInterest i
  rw [hfun] at hmp
  have hsum : ((monthIdxs strat st).map fun i =>
      (st.debts.getD i default).minimumPayment).sum =
      (st.debts.map DS.minimumPayment).sum := by
    have hpm : ((monthIdxs strat st).map fun i =>
        (st.debts.getD i default).minimumPayment).Perm
        ((List.range st.debts.length).map fun i =>
          (st.debts.getD i default).minimumPayment) :=
      (orderedIdx_perm strat st.debts).map _
    rw [hpm.sum_eq]
    exact map_getD_range st.debts DS.minimumPayment
  rw [hsum] at hmp
  have hsnow : dvaluesSum (monthSnow strat schedMap snow m st).2.1 ≤
      dvaluesSum (monthMin strat st).2.1 +
        max 0 (monthPool schedMap snow m st + (monthMin strat st).2.2) :=
    snowballPhase_sum (monthIdxs strat st) (monthMin strat st).1
      (monthMin strat st).2.1 (monthPool schedMap snow m st + (monthMin strat st).2.2)
  omega

/-- A month step never changes any debt's minimum payment (positionally). -/
theorem stepMonth_minPay_getD (strat : Strategy) (schedMap : PyDict Nat ℤ)
    (povMap : PyDict Nat (PyDict ℤ ℤ)) (snow : ℤ) (bd : Date) (m : Nat)
    (st : SimState) (i : Nat) :
    ((stepMonthT strat schedMap povMap snow bd m st).2.debts.getD i
        default).minimumPayment =
      (st.debts.getD i default).minimumPayment := by
  have h4 := settlePhase_getD DS.minimumPayment (fun d b => rfl) (fun d b m' => rfl)
    m (monthBAI strat st) (monthPayFinal strat schedMap povMap snow m st)
    (List.range (monthSnow strat schedMap snow m st).1.length)
    (monthSnow strat schedMap snow m st).1 st.paidIds 0 i
  have h3 := snowballPhase_getD DS.minimumPayment (fun d b => rfl)
    (monthIdxs strat st) (monthMin strat st).1 (monthMin strat st).2.1
    (monthPool schedMap snow m st + (monthMin strat st).2.2) i
  have h2 := minPaymentPhase_getD DS.minimumPayment (fun d b => rfl)
    (monthIdxs strat st) (monthInterest strat st).1 (monthPayments0 st) 0 i
  have h1 := interestPhase_getD DS.minimumPayment (fun d b ip => rfl)
    (monthIdxs strat st) st.debts 0 st.totalInterest i
  exact h4.trans (h3.trans (h2.trans h1))

/-- A month step never changes the number of debt states. -/
theorem stepMonth_debts_length (strat : Strategy) (schedMap : PyDict Nat ℤ)
    (povMap : PyDict Nat (PyDict ℤ ℤ)) (snow : ℤ) (bd : Date) (m : Nat)
    (st : SimState) :
    (stepMonthT strat schedMap povMap snow bd m st).2.debts.length =
      st.debts.length := by
  have h4 := settlePhase_length m (monthBAI strat st)
    (monthPayFinal strat schedMap povMap snow m st)
    (List.range (monthSnow strat schedMap snow m st).1.length)
    (monthSnow strat schedMap snow m st).1 st.paidIds 0
  have h3 := snowballPhase_length (monthIdxs strat st) (monthMin strat st).1
    (monthMin strat st).2.1 (monthPool schedMap snow m st + (monthMin strat st).2.2)
  have h2 := minPaymentPhase_length (monthIdxs strat st) (monthInterest strat st).1
    (monthPayments0 st) 0
  have h1 := interestPhase_length (monthIdxs strat st) st.debts 0 st.totalInterest
  exact h4.trans (h3.trans (h2.trans h1))

/-- The settlement phase only adds nonnegative freed minimums when the
minimum payments are nonnegative. -/
theorem settlePhase_newlyFreed_nonneg (m : Nat) (bAI payF : PyDict ℤ ℤ) :
    ∀ (idxs : List Nat) (debts : List DS) (paid : List ℤ) (nf : ℤ),
      (∀ i, 0 ≤ (debts.getD i default).minimumPayment) → 0 ≤ nf →
      0 ≤ (settlePhase m bAI payF idxs debts paid nf).2.2 := by
  intro idxs
  induction idxs with
  | nil => intro debts paid nf _ h; exact h
  | cons j rest ih =>
    intro debts paid nf hmin hnf
    unfold settlePhase
    have hpres : ∀ (x : DS),
        x.minimumPayment = (debts.getD j default).minimumPayment →
        ∀ i, 0 ≤ ((debts.set j x).getD i default).minimumPayment := by
      intro x hx i
      rw [getD_set']
      by_cases hc : i = j ∧ j < debts.length
      · rw [if_pos hc, hx]; exact hmin j
      · rw [if_neg hc]; exact hmin i
    by_cases h1 : dget bAI (debts.getD j default).id 0 -
        dget payF (debts.getD j default).id 0 ≤ 0
    · rw [if_pos h1]
      by_cases h2 : (debts.getD j default).id ∈ paid
      · rw [if_pos h2]
        exact ih _ _ _ (hpres _ rfl) hnf
      · rw [if_neg h2]
        refine ih _ _ _ (hpres _ rfl) ?_
        have := hmin j
        omega
    · rw [if_neg h1]
      exact ih _ _ _ (hpres _ rfl) hnf

/-- A month step keeps `freed_minimums` nonnegative. -/
theorem stepMonth_freed_nonneg (strat : Strategy) (schedMap : PyDict Nat ℤ)
    (povMap : PyDict Nat (PyDict ℤ ℤ)) (snow : ℤ) (bd : Date) (m : Nat)
    (st : SimState)
    (hmin : ∀ i, 0 ≤ (st.debts.getD i default).minimumPayment)
    (hnf : 0 ≤ st.freedMinimums) :
    0 ≤ (stepMonthT strat schedMap povMap snow bd m st).2.freedMinimums := by
  have hminSnow : ∀ i,
      0 ≤ ((monthSnow strat schedMap snow m st).1.getD i default).minimumPayment := by
    intro i
    have h3 := snowballPhase_getD DS.minimumPayment (fun d b => rfl)
      (monthIdxs strat st) (monthMin strat st).1 (monthMin strat st).2.1
      (monthPool schedMap snow m st + (monthMin strat st).2.2) i
    have h2 := minPaymentPhase_getD DS.minimumPayment (fun d b => rfl)
      (monthIdxs strat st) (monthInterest strat st).1 (monthPayments0 st) 0 i
    have h1 := interestPhase_getD DS.minimumPayment (fun d b ip => rfl)
      (monthIdxs strat st) st.debts 0 st.totalInterest i
    exact le_of_le_of_eq (hmin i) (h3.trans (h2.trans h1)).symm
  have h : 0 ≤ (settlePhase m (monthBAI strat st)
      (monthPayFinal strat schedMap povMap snow m st)
      (List.range (monthSnow strat schedMap snow m st).1.length)
      (monthSnow strat schedMap snow m st).1 st.paidIds 0).2.2 :=
    settlePhase_newlyFreed_nonneg m (monthBAI strat st)
      (monthPayFinal strat schedMap povMap snow m st)
      (List.range (monthSnow strat schedMap snow m st).1.length)
      (monthSnow strat schedMap snow m st).1 st.paidIds 0 hminSnow le_rfl
  show 0 ≤ st.freedMinimums +
    (monthSettle strat schedMap povMap snow m st).2.2
  have h' : 0 ≤ (monthSettle strat schedMap povMap snow m st).2.2 := h
  omega

/-- Loop invariant: with nonnegative initial snowball, schedule additions,
freed minimums and minimum payments, every month record produced by the
loop has its default payments bounded by the entry state's minimum-payment
sum plus that month's recorded pool. -/
theorem simLoop_default_bound (strat : Strategy) (schedMap : PyDict Nat ℤ)
    (povMap : PyDict Nat (PyDict ℤ ℤ)) (snow : ℤ) (bd : Date)
    (hsnow0 : 0 ≤ snow) (hsched : ∀ p ∈ schedMap, 0 ≤ p.2) :
    ∀ (fuel m : Nat) (st : SimState) (recs : List MonthRec) (stF : SimState),
      (∀ i, 0 ≤ (st.debts.getD i default).minimumPayment) →
      0 ≤ st.freedMinimums →
      simLoop strat schedMap povMap snow bd fuel m st = .ok (recs, stF) →
      ∀ rec ∈ recs,
        dvaluesSum rec.defaultPayments ≤
          (st.debts.map DS.minimumPayment).sum + rec.snowballAmount := by
  intro fuel
  induction fuel with
  | zero =>
    intro m st recs stF hmin hnf h rec hrecmem
    by_cases hp : anyPositive st.debts
    · simp [simLoop, hp] at h
    · simp only [simLoop, if_neg hp, Except.ok.injEq, Prod.mk.injEq] at h
      rw [← h.1] at hrecmem
      simp at hrecmem
  | succ f ih =>
    intro m st recs stF hmin hnf h rec hrecmem
    by_cases hp : anyPositive st.debts
    · simp only [simLoop, if_pos hp] at h
      by_cases hg : 600 < m + 1
      · simp [hg] at h
      · simp only [if_neg hg] at h
        rcases hrec : simLoop strat schedMap povMap snow bd f (m + 1)
            (stepMonthT strat schedMap povMap snow bd m st).2 with e | ⟨recs', stF'⟩
        · rw [hrec] at h; simp at h
        · rw [hrec] at h
          simp only [Except.ok.injEq, Prod.mk.injEq] at h
          obtain ⟨hrecs, _⟩ := h
          subst hrecs
          rcases List.mem_cons.mp hrecmem with hhd | htl
          · subst hhd
            have hd := dget_nonneg schedMap hsched m
            have hpool : 0 ≤ monthPool schedMap snow m st := by
              unfold monthPool
              omega
            exact stepMonth_default_bound strat schedMap snow m st hmin hpool
          · have hmin' : ∀ i, 0 ≤
                (((stepMonthT strat schedMap povMap snow bd m
                  st).2.debts.getD i default)).minimumPayment := by
              intro i
              rw [stepMonth_minPay_getD]
              exact hmin i
            have hnf' : 0 ≤
                (stepMonthT strat schedMap povMap snow bd m st).2.freedMinimums :=
              stepMonth_freed_nonneg strat schedMap povMap snow bd m st hmin hnf
            have hih := ih (m + 1) _ recs' stF' hmin' hnf' hrec rec htl
            have hmap : ((stepMonthT strat schedMap povMap snow bd m
                st).2.debts.map DS.minimumPayment) =
                st.debts.map DS.minimumPayment :=
              map_eq_of_getD DS.minimumPayment _ _
                (stepMonth_debts_length strat schedMap povMap snow bd m st)
                (fun i => stepMonth_minPay_getD strat schedMap povMap snow bd m st i)
            rw [hmap] at hih
            exact hih
    · simp only [simLoop, if_neg hp, Except.ok.injEq, Prod.mk.injEq] at h
      rw [← h.1] at hrecmem
      simp at hrecmem

/-- `initialStates` carries each debt's minimum payment over verbatim. -/
theorem initialStates_map_minPay (debts : List Debt) :
    (initialStates debts).map DS.minimumPayment =
      debts.map Debt.minimumPayment := by
  unfold initialStates
  rw [List.map_map]
  rfl

/-- C6: For every strategy and every recorded month of a successful run
(on inputs whose minimum payments and schedule-override additions are
nonnegative, as the API validates), the sum over all debts of the default
(pre-payment-override) payments for that month does not exceed the sum of
the input minimum payments plus the month's recorded pool
(`snowballAmount` = initial snowball + freed minimums + that month's
schedule-override addition). -/
theorem default_payments_bound (settings : Setting) (debts : List Debt)
    (so : List ScheduleOverride) (po : List PaymentOverride) (r : SimResult)
    (hmin : ∀ d ∈ debts, 0 ≤ d.minimumPayment)
    (hso : ∀ o ∈ so, 0 ≤ o.additionalAmount)
    (hrun : runSimulation settings debts so po = .ok r) :
    ∀ rec ∈ r.months,
      dvaluesSum rec.defaultPayments ≤
        (debts.map Debt.minimumPayment).sum + rec.snowballAmount := by
  rcases runSimulation_ok_elim settings debts so po r hrun with
    ⟨hd, hr⟩ | ⟨strat, months, stF, hstrat, hbud, hloop, hr⟩
  · subst hr
    intro rec hrec
    have hm0 : (default : SimResult).months = [] := rfl
    rw [hm0] at hrec
    simp at hrec
  · subst hr
    intro rec hrec
    have hmonths : (assembleResult settings strat (initialStates debts)
        ((initialStates debts).map DS.minimumPayment).sum months stF).months =
        months := rfl
    rw [hmonths] at hrec
    have hpt0 : ∀ i, 0 ≤ ((initialStates debts).getD i default).minimumPayment := by
      intro i
      by_cases hi : i < (initialStates debts).length
      · have hmem : (initialStates debts).getD i default ∈ initialStates debts :=
          getD_mem' _ _ hi
        simp only [initialStates, List.mem_map] at hmem
        obtain ⟨d, hd2, heq⟩ := hmem
        exact le_of_le_of_eq (hmin d hd2) (congrArg DS.minimumPayment heq)
      · rw [List.getD_eq_default _ _ (le_of_not_lt hi)]
        decide
    have hb := simLoop_default_bound strat (buildSchedMap so) (buildPovMap po)
      (max (settings.monthlyBudget -
        ((initialStates debts).map DS.minimumPayment).sum) 0)
      settings.balanceDate (le_max_right _ _) (buildSchedMap_values_nonneg so hso)
      600 1 ⟨initialStates debts, 0, 0, []⟩ months stF hpt0 le_rfl hloop rec hrec
    calc dvaluesSum rec.defaultPayments
        ≤ ((initialStates debts).map DS.minimumPayment).sum + rec.snowballAmount :=
          hb
      _ = (debts.map Debt.minimumPayment).sum + rec.snowballAmount := by
          rw [initialStates_map_minPay]

/-- The default-payments bound, checked on the first month of the
hand-checked avalanche scenario. -/
theorem default_payments_bound_witness :
    dvaluesSum (handResult.months.getD 0 default).defaultPayments ≤
      (debtsHand.map Debt.minimumPayment).sum +
        (handResult.months.getD 0 default).snowballAmount := by
  have hmem : handResult.months.getD 0 default ∈ handResult.months := by decide
  exact default_payments_bound settingsHand debtsHand [] [] handResult
    (by decide) (by decide) (by rfl) _ hmem

/-! ## Recorded balances: nonnegativity, settlement and payoff months -/

/-- Every list member sits at some position. -/
theorem mem_getD_of_mem [Inhabited α] :
    ∀ (l : List α) (a : α), a ∈ l → ∃ i, i < l.length ∧ l.getD i default = a := by
  intro l
  induction l with
  | nil => intro a ha; simp at ha
  | cons x xs ih =>
    intro a ha
    rcases List.mem_cons.mp ha with rfl | ha'
    · exact ⟨0, by simp, rfl⟩
    · obtain ⟨i, hi, hget⟩ := ih a ha'
      exact ⟨i + 1, by simpa using hi, hget⟩

/-- Looking up any key in an all-zero dictionary yields zero. -/
theorem dget_zero_of_all_zero [DecidableEq α] (d : PyDict α ℤ)
    (h : ∀ p ∈ d, p.2 = 0) (k : α) : dget d k 0 = 0 := by
  rcases hfind : dfind d k with _ | v
  · simp [dget, hfind]
  · have := h (k, v) (dfind_some_mem d k v hfind)
    simpa [dget, hfind] using this

/-- Every value of the balances dictionary is some listed debt's balance. -/
theorem buildBalancesDict_values (l : List DS) :
    ∀ p ∈ buildBalancesDict l, ∃ d ∈ l, p.2 = d.balance := by
  have hgen : ∀ (l' : List DS) (acc : PyDict ℤ ℤ),
      ∀ p ∈ l'.foldl (fun acc d => dinsert d.id d.balance acc) acc,
        p ∈ acc ∨ ∃ d ∈ l', p.2 = d.balance := by
    intro l'
    induction l' with
    | nil => intro acc p hp; exact .inl hp
    | cons x xs ih =>
      intro acc p hp
      rcases ih (dinsert x.id x.balance acc) p hp with hacc | ⟨d, hd, hv⟩
      · rcases dinsert_values x.id x.balance acc p hacc with hv | hacc'
        · exact .inr ⟨x, by simp, hv⟩
        · exact .inl hacc'
      · exact .inr ⟨d, by simp [hd], hv⟩
  intro p hp
  rcases hgen l [] p hp with hacc | h
  · simp at hacc
  · exact h

/-- The settlement phase leaves untouched positions alone. -/
theorem settlePhase_not_mem (m : Nat) (bAI payF : PyDict ℤ ℤ) :
    ∀ (idxs : List Nat) (debts : List DS) (paid : List ℤ) (nf : ℤ) (i : Nat),
      i ∉ idxs →
      (settlePhase m bAI payF idxs debts paid nf).1.getD i default =
        debts.getD i default := by
  intro idxs
  induction idxs with
  | nil => intro debts paid nf i _; rfl
  | cons j rest ih =>
    intro debts paid nf i hni
    have hij : i ≠ j := fun he => hni (he ▸ List.mem_cons_self j rest)
    have hrest : i ∉ rest := fun hr => hni (List.mem_cons_of_mem j hr)
    have hset : ∀ (x : DS), (debts.set j x).getD i default = debts.getD i default := by
      intro x
      rw [getD_set']
      rw [if_neg (fun hc => hij hc.1)]
    unfold settlePhase
    by_cases h1 : dget bAI (debts.getD j default).id 0 -
        dget payF (debts.getD j default).id 0 ≤ 0
    · rw [if_pos h1]
      by_cases h2 : (debts.getD j default).id ∈ paid
      · rw [if_pos h2, ih _ _ _ _ hrest, hset]
      · rw [if_neg h2, ih _ _ _ _ hrest, hset]
    · rw [if_neg h1, ih _ _ _ _ hrest, hset]

/-- After settlement, every touched-or-already-nonnegative position holds a
nonnegative balance; with `idxs` covering all positions this means every
balance is nonnegative. -/
theorem settlePhase_balances_nonneg (m : Nat) (bAI payF : PyDict ℤ ℤ) :
    ∀ (idxs : List Nat) (debts : List DS) (paid : List ℤ) (nf : ℤ),
      (∀ i, i < debts.length → i ∉ idxs → 0 ≤ (debts.getD i default).balance) →
      ∀ i, i < (settlePhase m bAI payF idxs debts paid nf).1.length →
        0 ≤ ((settlePhase m bAI payF idxs debts paid nf).1.getD i default).balance := by
  intro idxs
  induction idxs with
  | nil =>
    intro debts paid nf hout i hi
    exact hout i hi (by simp)
  | cons j rest ih =>
    intro debts paid nf hout
    have hpres : ∀ (x : DS), 0 ≤ x.balance →
        ∀ i, i < (debts.set j x).length → i ∉ rest →
          0 ≤ ((debts.set j x).getD i default).balance := by
      intro x hx i hi hni
      rw [getD_set']
      by_cases hc : i = j ∧ j < debts.length
      · rw [if_pos hc]; exact hx
      · rw [if_neg hc]
        rw [List.length_set] at hi
        by_cases hij : i = j
        · exact absurd ⟨hij, hij ▸ hi⟩ hc
        · exact hout i hi (by simp [hij, hni])
    unfold settlePhase
    by_cases h1 : dget bAI (debts.getD j default).id 0 -
        dget payF (debts.getD j default).id 0 ≤ 0
    · rw [if_pos h1]
      by_cases h2 : (debts.getD j default).id ∈ paid
      · rw [if_pos h2]
        exact ih _ _ _ (hpres _ le_rfl)
      · rw [if_neg h2]
        exact ih _ _ _ (hpres _ le_rfl)
    · rw [if_neg h1]
      exact ih _ _ _ (hpres _ (le_of_not_le h1))

/-- Every balance recorded by a month step is nonnegative. -/
theorem stepMonth_record_balances_nonneg (strat : Strategy)
    (schedMap : PyDict Nat ℤ) (povMap : PyDict Nat (PyDict ℤ ℤ)) (snow : ℤ)
    (bd : Date) (m : Nat) (st : SimState) :
    ∀ p ∈ (stepMonthT strat schedMap povMap snow bd m st).1.remainingBalances,
      0 ≤ p.2 := by
  intro p hp
  have hvals := buildBalancesDict_values
    (monthSettle strat schedMap povMap snow m st).1 p hp
  obtain ⟨d, hd, hv⟩ := hvals
  obtain ⟨i, hi, hget⟩ := mem_getD_of_mem _ d hd
  have hnn := settlePhase_balances_nonneg m (monthBAI strat st)
    (monthPayFinal strat schedMap povMap snow m st)
    (List.range (monthSnow strat schedMap snow m st).1.length)
    (monthSnow strat schedMap snow m st).1 st.paidIds 0
    (fun i hlt hnot => absurd (List.mem_range.mpr hlt) hnot) i hi
  rw [hv, ← hget]
  exact hnn

/-- Every balance recorded in any month of the loop is nonnegative. -/
theorem simLoop_balances_nonneg (strat : Strategy) (schedMap : PyDict Nat ℤ)
    (povMap : PyDict Nat (PyDict ℤ ℤ)) (snow : ℤ) (bd : Date) :
    ∀ (fuel m : Nat) (st : SimState) (recs : List MonthRec) (stF : SimState),
      simLoop strat schedMap povMap snow bd fuel m st = .ok (recs, stF) →
      ∀ rec ∈ recs, ∀ p ∈ rec.remainingBalances, 0 ≤ p.2 := by
  intro fuel
  induction fuel with
  | zero =>
    intro m st recs stF h rec hrecmem
    by_cases hp : anyPositive st.debts
    · simp [simLoop, hp] at h
    · simp only [simLoop, if_neg hp, Except.ok.injEq, Prod.mk.injEq] at h
      rw [← h.1] at hrecmem
      simp at hrecmem
  | succ f ih =>
    intro m st recs stF h rec hrecmem
    by_cases hp : anyPositive st.debts
    · simp only [simLoop, if_pos hp] at h
      by_cases hg : 600 < m + 1
      · simp [hg] at h
      · simp only [if_neg hg] at h
        rcases hrec : simLoop strat schedMap povMap snow bd f (m + 1)
            (stepMonthT strat schedMap povMap snow bd m st).2 with e | ⟨recs', stF'⟩
        · rw [hrec] at h; simp at h
        · rw [hrec] at h
          simp only [Except.ok.injEq, Prod.mk.injEq] at h
          obtain ⟨hrecs, _⟩ := h
          subst hrecs
          rcases List.mem_cons.mp hrecmem with hhd | htl
          · subst hhd
            exact stepMonth_record_balances_nonneg strat schedMap povMap snow bd m st
          · exact ih (m + 1) _ recs' stF' hrec rec htl
    · simp only [simLoop, if_neg hp, Except.ok.injEq, Prod.mk.injEq] at h
      rw [← h.1] at hrecmem
      simp at hrecmem

/-- A finished loop leaves no positive balance. -/
theorem simLoop_settled (strat : Strategy) (schedMap : PyDict Nat ℤ)
    (povMap : PyDict Nat (PyDict ℤ ℤ)) (snow : ℤ) (bd : Date) :
    ∀ (fuel m : Nat) (st : SimState) (recs : List MonthRec) (stF : SimState),
      simLoop strat schedMap povMap snow bd fuel m st = .ok (recs, stF) →
      anyPositive stF.debts = false := by
  intro fuel
  induction fuel with
  | zero =>
    intro m st recs stF h
    by_cases hp : anyPositive st.debts
    · simp [simLoop, hp] at h
    · simp only [simLoop, if_neg hp, Except.ok.injEq, Prod.mk.injEq] at h
      rw [← h.2]
      simpa using hp
  | succ f ih =>
    intro m st recs stF h
    by_cases hp : anyPositive st.debts
    · simp only [simLoop, if_pos hp] at h
      by_cases hg : 600 < m + 1
      · simp [hg] at h
      · simp only [if_neg hg] at h
        rcases hrec : simLoop strat schedMap povMap snow bd f (m + 1)
            (stepMonthT strat schedMap povMap snow bd m st).2 with e | ⟨recs', stF'⟩
        · rw [hrec] at h; simp at h
        · rw [hrec] at h
          simp only [Except.ok.injEq, Prod.mk.injEq] at h
          rw [← h.2]
          exact ih (m + 1) _ recs' stF' hrec
    · simp only [simLoop, if_neg hp, Except.ok.injEq, Prod.mk.injEq] at h
      rw [← h.2]
      simpa using hp

/-- A loop run that records no month returns its entry state. -/
theorem simLoop_ok_nil (strat : Strategy) (schedMap : PyDict Nat ℤ)
    (povMap : PyDict Nat (PyDict ℤ ℤ)) (snow : ℤ) (bd : Date) :
    ∀ (fuel m : Nat) (st stF : SimState),
      simLoop strat schedMap povMap snow bd fuel m st = .ok ([], stF) →
      stF = st := by
  intro fuel
  cases fuel with
  | zero =>
    intro m st stF h
    by_cases hp : anyPositive st.debts
    · simp [simLoop, hp] at h
    · simp only [simLoop, if_neg hp, Except.ok.injEq, Prod.mk.injEq] at h
      exact h.2.symm
  | succ f =>
    intro m st stF h
    by_cases hp : anyPositive st.debts
    · simp only [simLoop, if_pos hp] at h
      by_cases hg : 600 < m + 1
      · simp [hg] at h
      · simp only [if_neg hg] at h
        rcases hrec : simLoop strat schedMap povMap snow bd f (m + 1)
            (stepMonthT strat schedMap povMap snow bd m st).2 with e | ⟨recs', stF'⟩
        · rw [hrec] at h; simp at h
        · rw [hrec] at h; simp at h
    · simp only [simLoop, if_neg hp, Except.ok.injEq, Prod.mk.injEq] at h
      exact h.2.symm

/-- The last recorded month's balances dictionary is the final state's. -/
theorem simLoop_last_balances (strat : Strategy) (schedMap : PyDict Nat ℤ)
    (povMap : PyDict Nat (PyDict ℤ ℤ)) (snow : ℤ) (bd : Date) :
    ∀ (fuel m : Nat) (st : SimState) (recs : List MonthRec) (stF : SimState),
      simLoop strat schedMap povMap snow bd fuel m st = .ok (recs, stF) →
      recs ≠ [] →
      (recs.getD (recs.length - 1) default).remainingBalances =
        buildBalancesDict stF.debts := by
  intro fuel
  induction fuel with
  | zero =>
    intro m st recs stF h hne
    by_cases hp : anyPositive st.debts
    · simp [simLoop, hp] at h
    · simp only [simLoop, if_neg hp, Except.ok.injEq, Prod.mk.injEq] at h
      exact absurd h.1.symm hne
  | succ f ih =>
    intro m st recs stF h hne
    by_cases hp : anyPositive st.debts
    · simp only [simLoop, if_pos hp] at h
      by_cases hg : 600 < m + 1
      · simp [hg] at h
      · simp only [if_neg hg] at h
        rcases hrec : simLoop strat schedMap povMap snow bd f (m + 1)
            (stepMonthT strat schedMap povMap snow bd m st).2 with e | ⟨recs', stF'⟩
        · rw [hrec] at h; simp at h
        · rw [hrec] at h
          simp only [Except.ok.injEq, Prod.mk.injEq] at h
          obtain ⟨hrecs, hstf⟩ := h
          subst hrecs
          subst hstf
          rcases hr' : recs' with _ | ⟨r0, rest⟩
          · have hst : stF' = (stepMonthT strat schedMap povMap snow bd m st).2 := by
              rw [hr'] at hrec
              exact simLoop_ok_nil strat schedMap povMap snow bd f (m + 1) _ _ hrec
            subst hst
            rfl
          · rw [← hr']
            have hlen : recs'.length - 1 + 1 = recs'.length := by
              rw [hr']; simp
            have hcons : ((stepMonthT strat schedMap povMap snow bd m st).1 ::
                recs').length - 1 = recs'.length - 1 + 1 := by
              rw [List.length_cons]
              omega
            rw [hcons, List.getD_cons_succ]
            exact ih (m + 1) _ recs' stF' hrec (by rw [hr']; simp)
    · simp only [simLoop, if_neg hp, Except.ok.injEq, Prod.mk.injEq] at h
      exact absurd h.1.symm hne

/-- Looking up a listed debt's id in a dictionary built by folding
`d[x.id] = f x` over a duplicate-free list yields `f` of that debt. -/
theorem dget_build (f : DS → β) (d0 : β) (l : List DS)
    (hnd : (l.map DS.id).Nodup) (d : DS) (hd : d ∈ l) :
    dget (l.foldl (fun acc x => dinsert x.id (f x) acc) []) d.id d0 = f d := by
  unfold dget
  rw [dfind_build f l hnd d hd]
  rfl

/-- Settlement never invents a payoff month: a debt marked as paid off in
month `pm` either carried that mark already, or `pm` is this month and its
settled balance is exactly zero. -/
theorem settlePhase_payoff (m : Nat) (bAI payF : PyDict ℤ ℤ) :
    ∀ (idxs : List Nat) (debts : List DS) (paid : List ℤ) (nf : ℤ),
      idxs.Nodup →
      ∀ (i : Nat) (pm : Nat),
        ((settlePhase m bAI payF idxs debts paid nf).1.getD i
            default).payoffMonthIndex = some pm →
        (debts.getD i default).payoffMonthIndex = some pm ∨
        (pm = m ∧
          ((settlePhase m bAI payF idxs debts paid nf).1.getD i
              default).balance = 0) := by
  intro idxs
  induction idxs with
  | nil =>
    intro debts paid nf _ i pm h
    exact .inl h
  | cons j rest ih =>
    intro debts paid nf hnd i pm h
    have hj : j ∉ rest := (List.nodup_cons.mp hnd).1
    have hndr : rest.Nodup := (List.nodup_cons.mp hnd).2
    unfold settlePhase at h ⊢
    by_cases h1 : dget bAI (debts.getD j default).id 0 -
        dget payF (debts.getD j default).id 0 ≤ 0
    · rw [if_pos h1] at h ⊢
      by_cases h2 : (debts.getD j default).id ∈ paid
      · rw [if_pos h2] at h ⊢
        rcases ih _ _ _ hndr i pm h with hdeb | hright
        · rw [getD_set'] at hdeb
          by_cases hc : i = j ∧ j < debts.length
          · rw [if_pos hc] at hdeb
            left
            rw [hc.1]
            exact hdeb
          · rw [if_neg hc] at hdeb
            exact .inl hdeb
        · exact .inr hright
      · rw [if_neg h2] at h ⊢
        rcases ih _ _ _ hndr i pm h with hdeb | hright
        · rw [getD_set'] at hdeb
          by_cases hc : i = j ∧ j < debts.length
          · rw [if_pos hc] at hdeb
            have hpm : pm = m := by
              have := Option.some.inj hdeb.symm
              omega
            refine .inr ⟨hpm, ?_⟩
            rw [settlePhase_not_mem m bAI payF rest _ _ _ i (hc.1 ▸ hj)]
            rw [getD_set', if_pos hc]
          · rw [if_neg hc] at hdeb
            exact .inl hdeb
        · exact .inr hright
    · rw [if_neg h1] at h ⊢
      rcases ih _ _ _ hndr i pm h with hdeb | hright
      · rw [getD_set'] at hdeb
        by_cases hc : i = j ∧ j < debts.length
        · rw [if_pos hc] at hdeb
          left
          rw [hc.1]
          exact hdeb
        · rw [if_neg hc] at hdeb
          exact .inl hdeb
      · exact .inr hright

/-- The phases before settlement never touch `payoffMonthIndex`. -/
theorem monthSnow_getD_payoff (strat : Strategy) (schedMap : PyDict Nat ℤ)
    (snow : ℤ) (m : Nat) (st : SimState) (i : Nat) :
    ((monthSnow strat schedMap snow m st).1.getD i default).payoffMonthIndex =
      (st.debts.getD i default).payoffMonthIndex := by
  unfold monthSnow
  rw [snowballPhase_getD DS.payoffMonthIndex (fun _ _ => rfl)]
  unfold monthMin
  rw [minPaymentPhase_getD DS.payoffMonthIndex (fun _ _ => rfl)]
  exact interestPhase_getD DS.payoffMonthIndex (fun _ _ _ => rfl) _ _ _ _ i

/-- A month step never changes any debt's id (positionally). -/
theorem stepMonth_id_getD (strat : Strategy) (schedMap : PyDict Nat ℤ)
    (povMap : PyDict Nat (PyDict ℤ ℤ)) (snow : ℤ) (bd : Date) (m : Nat)
    (st : SimState) (i : Nat) :
    ((stepMonthT strat schedMap povMap snow bd m st).2.debts.getD i
        default).id = (st.debts.getD i default).id := by
  have h4 := settlePhase_getD DS.id (fun d b => rfl) (fun d b m' => rfl)
    m (monthBAI strat st) (monthPayFinal strat schedMap povMap snow m st)
    (List.range (monthSnow strat schedMap snow m st).1.length)
    (monthSnow strat schedMap snow m st).1 st.paidIds 0 i
  exact h4.trans (monthSnow_getD_id strat schedMap snow m st i)

/-- A month step permutes no positions: the id list is unchanged. -/
theorem stepMonth_map_id (strat : Strategy) (schedMap : PyDict Nat ℤ)
    (povMap : PyDict Nat (PyDict ℤ ℤ)) (snow : ℤ) (bd : Date) (m : Nat)
    (st : SimState) :
    (stepMonthT strat schedMap povMap snow bd m st).2.debts.map DS.id =
      st.debts.map DS.id :=
  map_eq_of_getD DS.id _ _
    (stepMonth_debts_length strat schedMap povMap snow bd m st)
    (fun i => stepMonth_id_getD strat schedMap povMap snow bd m st i)

/-- One month step: a payoff mark is either inherited, or set this month
with the month's recorded balance for that debt exactly zero. -/
theorem stepMonth_payoff (strat : Strategy) (schedMap : PyDict Nat ℤ)
    (povMap : PyDict Nat (PyDict ℤ ℤ)) (snow : ℤ) (bd : Date) (m : Nat)
    (st : SimState) (hids : (st.debts.map DS.id).Nodup) (i : Nat) (pm : Nat)
    (h : ((stepMonthT strat schedMap povMap snow bd m st).2.debts.getD i
        default).payoffMonthIndex = some pm) :
    (st.debts.getD i default).payoffMonthIndex = some pm ∨
    (pm = m ∧
      dget ((stepMonthT strat schedMap povMap snow bd m st).1.remainingBalances)
        ((st.debts.getD i default).id) 0 = 0) := by
  have hsp := settlePhase_payoff m (monthBAI strat st)
    (monthPayFinal strat schedMap povMap snow m st)
    (List.range (monthSnow strat schedMap snow m st).1.length)
    (monthSnow strat schedMap snow m st).1 st.paidIds 0
    (List.nodup_range _) i pm h
  rcases hsp with hleft | ⟨hpm, hbal⟩
  · left
    rw [← monthSnow_getD_payoff strat schedMap snow m st i]
    exact hleft
  · right
    refine ⟨hpm, ?_⟩
    by_cases hi : i < (stepMonthT strat schedMap povMap snow bd m st).2.debts.length
    · have hd : (stepMonthT strat schedMap povMap snow bd m st).2.debts.getD i
          default ∈ (stepMonthT strat schedMap povMap snow bd m st).2.debts :=
        getD_mem' _ _ hi
      have hnd : ((stepMonthT strat schedMap povMap snow bd m
          st).2.debts.map DS.id).Nodup := by
        rw [stepMonth_map_id]
        exact hids
      have hdget := dget_build DS.balance 0
        (stepMonthT strat schedMap povMap snow bd m st).2.debts hnd _ hd
      rw [stepMonth_id_getD] at hdget
      exact hdget.trans hbal
    · exfalso
      rw [List.getD_eq_default _ _ (le_of_not_lt hi)] at h
      simp at h

/-- The loop never moves or renames debts. -/
theorem simLoop_ids (strat : Strategy) (schedMap : PyDict Nat ℤ)
    (povMap : PyDict Nat (PyDict ℤ ℤ)) (snow : ℤ) (bd : Date) :
    ∀ (fuel m : Nat) (st : SimState) (recs : List MonthRec) (stF : SimState),
      simLoop strat schedMap povMap snow bd fuel m st = .ok (recs, stF) →
      stF.debts.map DS.id = st.debts.map DS.id := by
  intro fuel
  induction fuel with
  | zero =>
    intro m st recs stF h
    by_cases hp : anyPositive st.debts
    · simp [simLoop, hp] at h
    · simp only [simLoop, if_neg hp, Except.ok.injEq, Prod.mk.injEq] at h
      rw [← h.2]
  | succ f ih =>
    intro m st recs stF h
    by_cases hp : anyPositive st.debts
    · simp only [simLoop, if_pos hp] at h
      by_cases hg : 600 < m + 1
      · simp [hg] at h
      · simp only [if_neg hg] at h
        rcases hrec : simLoop strat schedMap povMap snow bd f (m + 1)
            (stepMonthT strat schedMap povMap snow bd m st).2 with e | ⟨recs', stF'⟩
        · rw [hrec] at h; simp at h
        · rw [hrec] at h
          simp only [Except.ok.injEq, Prod.mk.injEq] at h
          rw [← h.2]
          exact (ih (m + 1) _ recs' stF' hrec).trans
            (stepMonth_map_id strat schedMap povMap snow bd m st)
    · simp only [simLoop, if_neg hp, Except.ok.injEq, Prod.mk.injEq] at h
      rw [← h.2]


/-- Equal images under `f` give equal images positionally (via `getD`). -/
theorem map_f_getD_eq [Inhabited α] (f : α → β) :
    ∀ (l l' : List α), l.map f = l'.map f →
      ∀ i, f (l.getD i default) = f (l'.getD i default) := by
  intro l
  induction l with
  | nil =>
    intro l' h i
    cases l' with
    | nil => rfl
    | cons y ys => simp at h
  | cons x xs ih =>
    intro l' h i
    cases l' with
    | nil => simp at h
    | cons y ys =>
      simp only [List.map_cons, List.cons.injEq] at h
      cases i with
      | zero => simpa using h.1
      | succ j => simpa using ih ys h.2 j

/-- Through the whole loop, every payoff mark on the final state is either
inherited from the entry state or points at a recorded month in which the
debt's recorded remaining balance is exactly zero. -/
theorem simLoop_payoff (strat : Strategy) (schedMap : PyDict Nat ℤ)
    (povMap : PyDict Nat (PyDict ℤ ℤ)) (snow : ℤ) (bd : Date) :
    ∀ (fuel m0 : Nat) (st : SimState) (recs : List MonthRec) (stF : SimState),
      (st.debts.map DS.id).Nodup →
      simLoop strat schedMap povMap snow bd fuel m0 st = .ok (recs, stF) →
      ∀ (i : Nat) (pm : Nat),
        ((stF.debts.getD i default)).payoffMonthIndex = some pm →
        ((st.debts.getD i default)).payoffMonthIndex = some pm ∨
        (m0 ≤ pm ∧ ∃ k, k < recs.length ∧
          (recs.getD k default).monthIndex = pm ∧
          dget (recs.getD k default).remainingBalances
            ((stF.debts.getD i default).id) 0 = 0) := by
  intro fuel
  induction fuel with
  | zero =>
    intro m0 st recs stF hids h i pm hpm
    by_cases hp : anyPositive st.debts
    · simp [simLoop, hp] at h
    · simp only [simLoop, if_neg hp, Except.ok.injEq, Prod.mk.injEq] at h
      rw [← h.2] at hpm
      exact .inl hpm
  | succ f ih =>
    intro m0 st recs stF hids h i pm hpm
    by_cases hp : anyPositive st.debts
    · simp only [simLoop, if_pos hp] at h
      by_cases hg : 600 < m0 + 1
      · simp [hg] at h
      · simp only [if_neg hg] at h
        rcases hrec : simLoop strat schedMap povMap snow bd f (m0 + 1)
            (stepMonthT strat schedMap povMap snow bd m0 st).2 with e | ⟨recs', stF'⟩
        · rw [hrec] at h; simp at h
        · rw [hrec] at h
          simp only [Except.ok.injEq, Prod.mk.injEq] at h
          obtain ⟨rfl, rfl⟩ := h
          have hids' : ((stepMonthT strat schedMap povMap snow bd m0
              st).2.debts.map DS.id).Nodup := by
            rw [stepMonth_map_id]
            exact hids
          have hidF : (stF'.debts.getD i default).id =
              (st.debts.getD i default).id := by
            have h1 := simLoop_ids strat schedMap povMap snow bd f (m0 + 1)
              _ recs' stF' hrec
            exact map_f_getD_eq DS.id stF'.debts st.debts
              (h1.trans (stepMonth_map_id strat schedMap povMap snow bd m0 st)) i
          rcases ih (m0 + 1) _ recs' stF' hids' hrec i pm hpm with hstep | hrem
          · rcases stepMonth_payoff strat schedMap povMap snow bd m0 st hids i pm
                hstep with hinit | ⟨hpmm, hdg⟩
            · exact .inl hinit
            · right
              refine ⟨by omega, 0, by simp, ?_, ?_⟩
              · rw [List.getD_cons_zero, hpmm]
                rfl
              · rw [List.getD_cons_zero, hidF]
                exact hdg
          · obtain ⟨hle, k, hk, hmi, hdg⟩ := hrem
            right
            refine ⟨by omega, k + 1, ?_, ?_, ?_⟩
            · simp only [List.length_cons]
              omega
            · rw [List.getD_cons_succ]
              exact hmi
            · rw [List.getD_cons_succ]
              exact hdg
    · simp only [simLoop, if_neg hp, Except.ok.injEq, Prod.mk.injEq] at h
      rw [← h.2] at hpm
      exact .inl hpm


/-- `initialStates` starts every debt without a payoff mark. -/
theorem initialStates_getD_payoff :
    ∀ (debts : List Debt) (i : Nat),
      ((initialStates debts).getD i default).payoffMonthIndex = none := by
  intro debts
  induction debts with
  | nil => intro i; rfl
  | cons d rest ih =>
    intro i
    cases i with
    | zero => rfl
    | succ j => exact ih j

/-- `initialStates` carries each debt's id over verbatim. -/
theorem initialStates_map_id (debts : List Debt) :
    (initialStates debts).map DS.id = debts.map Debt.id := by
  unfold initialStates
  rw [List.map_map]
  rfl

/-- Every per-debt summary is keyed by some input debt id, reads its fields
from the final-state lookup of that id, and takes `monthsToPayoff` from the
looked-up `payoffMonthIndex` (total months when absent). -/
theorem assembleResult_debts_shape (settings : Setting) (strat : Strategy)
    (debtStates : List DS) (minSum : ℤ) (months : List MonthRec)
    (stF : SimState) :
    ∀ s ∈ (assembleResult settings strat debtStates minSum months stF).debts,
      ∃ debtId, debtId ∈ debtStates.map DS.id ∧
        s.id = (dget (stF.debts.foldl (fun acc d => dinsert d.id d acc)
          ([] : PyDict ℤ DS)) debtId default).id ∧
        s.monthsToPayoff =
          (dget (stF.debts.foldl (fun acc d => dinsert d.id d acc)
            ([] : PyDict ℤ DS)) debtId
              default).payoffMonthIndex.getD months.length := by
  intro s hs
  have hs' : s ∈ ((orderDebtsT strat debtStates).map DS.id).map (fun debtId =>
      ({ id := (dget (stF.debts.foldl (fun acc d => dinsert d.id d acc)
           ([] : PyDict ℤ DS)) debtId default).id,
         creditor := (dget (stF.debts.foldl (fun acc d => dinsert d.id d acc)
           ([] : PyDict ℤ DS)) debtId default).creditor,
         initialBalance := (dget (stF.debts.foldl
           (fun acc d => dinsert d.id d acc) ([] : PyDict ℤ DS)) debtId
             default).initialBalance,
         interestPaid := (dget (stF.debts.foldl
           (fun acc d => dinsert d.id d acc) ([] : PyDict ℤ DS)) debtId
             default).interestPaid,
         monthsToPayoff := (dget (stF.debts.foldl
           (fun acc d => dinsert d.id d acc) ([] : PyDict ℤ DS)) debtId
             default).payoffMonthIndex.getD months.length,
         payoffMonth := (dget (stF.debts.foldl
           (fun acc d => dinsert d.id d acc) ([] : PyDict ℤ DS)) debtId
             default).payoffMonthIndex.map fun m =>
               addMonths settings.balanceDate (m - 1) } : DebtSummary)) := hs
  obtain ⟨debtId, hmem, heq⟩ := List.mem_map.mp hs'
  refine ⟨debtId, ?_, ?_, ?_⟩
  · exact (((orderDebtsT_perm strat debtStates).map DS.id).mem_iff).mp hmem
  · rw [← heq]
  · rw [← heq]


/-- C4 counterexample: in the growing-balance scenario (budget 50.00;
debt 1: 100.00 at 0% with minimum 50.00; debt 2: 100.00 at 12% with
minimum 0.00) the run succeeds, yet debt 2's recorded remaining balance
rises from 101.00 in month 1 to 102.01 in month 2: with a zero minimum
payment and no snowball money, its payment does not cover the month's
interest, so recorded balances are not non-increasing. -/
theorem balance_increases_between_months :
    runSimulation settingsGrow debtsGrow [] [] = .ok growResult ∧
    dget (growResult.months.getD 0 default).remainingBalances 2 0 = 10100 ∧
    dget (growResult.months.getD 1 default).remainingBalances 2 0 = 10201 :=
  ⟨rfl, by decide, by decide⟩

/-- C4 (amended): in every successful run on duplicate-free debt ids,
(i) every balance recorded in `remainingBalances` is nonnegative, (ii) every
balance recorded in the last month is exactly zero, and (iii) for every
per-debt summary, the month it reports the debt as paid off records exactly
zero for that debt — but recorded balances are not non-increasing in
general (see the growing-balance counterexample). -/
theorem remaining_balances_amended (settings : Setting) (debts : List Debt)
    (so : List ScheduleOverride) (po : List PaymentOverride) (r : SimResult)
    (hids : (debts.map Debt.id).Nodup)
    (hrun : runSimulation settings debts so po = .ok r) :
    (∀ rec ∈ r.months, ∀ p ∈ rec.remainingBalances, 0 ≤ p.2) ∧
    (∀ p ∈ (r.months.getD (r.months.length - 1) default).remainingBalances,
      p.2 = 0) ∧
    (∀ s ∈ r.debts,
      dget (r.months.getD (s.monthsToPayoff - 1) default).remainingBalances
        s.id 0 = 0) := by
  rcases runSimulation_ok_elim settings debts so po r hrun with
    ⟨hd, hr⟩ | ⟨strat, months, stF, hstrat, hbud, hloop, hr⟩
  · subst hr
    refine ⟨?_, ?_, ?_⟩
    · intro rec hrec
      rw [show (default : SimResult).months = [] from rfl] at hrec
      simp at hrec
    · intro p hp
      have h0 : (((default : SimResult).months.getD
          ((default : SimResult).months.length - 1)
            default).remainingBalances) = ([] : PyDict ℤ ℤ) := rfl
      rw [h0] at hp
      simp at hp
    · intro s hs
      rw [show (default : SimResult).debts = [] from rfl] at hs
      simp at hs
  · subst hr
    have hmonths : (assembleResult settings strat (initialStates debts)
        ((initialStates debts).map DS.minimumPayment).sum months stF).months =
        months := rfl
    have hnodup0 : ((initialStates debts).map DS.id).Nodup := by
      rw [initialStates_map_id]
      exact hids
    have hnn : ∀ rec ∈ months, ∀ p ∈ rec.remainingBalances, 0 ≤ p.2 :=
      fun rec hrec =>
        simLoop_balances_nonneg strat (buildSchedMap so) (buildPovMap po) _
          settings.balanceDate 600 1 ⟨initialStates debts, 0, 0, []⟩ months stF
          hloop rec hrec
    have hsettled := simLoop_settled strat (buildSchedMap so) (buildPovMap po) _
      settings.balanceDate 600 1 ⟨initialStates debts, 0, 0, []⟩ months stF hloop
    have hsettled' : ∀ d ∈ stF.debts, d.balance ≤ 0 := by
      intro d hd
      by_contra hpos
      have hne : anyPositive stF.debts = true := by
        unfold anyPositive
        rw [List.any_eq_true]
        exact ⟨d, hd, by simpa using not_le.mp hpos⟩
      rw [hsettled] at hne
      exact absurd hne (by simp)
    have hlast : ∀ p ∈ (months.getD (months.length - 1)
        default).remainingBalances, p.2 = 0 := by
      intro p hp
      by_cases hne : months = []
      · subst hne
        have h0 : ((([] : List MonthRec).getD
            (([] : List MonthRec).length - 1)
              default).remainingBalances) = ([] : PyDict ℤ ℤ) := rfl
        rw [h0] at hp
        simp at hp
      · have hlen : months.length - 1 < months.length := by
          cases months with
          | nil => exact absurd rfl hne
          | cons a l => simp
        have hmemrec : months.getD (months.length - 1) default ∈ months :=
          getD_mem' _ _ hlen
        have hge := hnn _ hmemrec p hp
        rw [simLoop_last_balances strat (buildSchedMap so) (buildPovMap po) _
          settings.balanceDate 600 1 ⟨initialStates debts, 0, 0, []⟩ months stF
          hloop hne] at hp
        obtain ⟨d, hd, hv⟩ := buildBalancesDict_values stF.debts p hp
        have hle := hsettled' d hd
        omega
    refine ⟨?_, ?_, ?_⟩
    · rw [hmonths]
      exact hnn
    · rw [hmonths]
      exact hlast
    · rw [hmonths]
      intro s hs
      obtain ⟨debtId, hmemid, hsid, hsm⟩ := assembleResult_debts_shape settings
        strat (initialStates debts) _ months stF s hs
      have hidsF : stF.debts.map DS.id = (initialStates debts).map DS.id :=
        simLoop_ids strat (buildSchedMap so) (buildPovMap po) _
          settings.balanceDate 600 1 ⟨initialStates debts, 0, 0, []⟩ months stF
          hloop
      have hmemid' : debtId ∈ stF.debts.map DS.id := by
        rw [hidsF]
        exact hmemid
      obtain ⟨dF, hdF, hdFid⟩ := List.mem_map.mp hmemid'
      have hndF : (stF.debts.map DS.id).Nodup := by
        rw [hidsF]
        exact hnodup0
      have hlook : dget (stF.debts.foldl (fun acc d => dinsert d.id d acc)
          ([] : PyDict ℤ DS)) debtId default = dF := by
        rw [← hdFid]
        exact dget_build (fun d => d) default stF.debts hndF dF hdF
      rw [hlook] at hsid hsm
      rcases hpo : dF.payoffMonthIndex with _ | pmv
      · rw [hpo] at hsm
        simp only [Option.getD_none] at hsm
        rw [hsm, hsid]
        exact dget_zero_of_all_zero _ hlast dF.id
      · rw [hpo] at hsm
        simp only [Option.getD_some] at hsm
        obtain ⟨j, hj, hgetj⟩ := mem_getD_of_mem stF.debts dF hdF
        have hpm : (stF.debts.getD j default).payoffMonthIndex = some pmv := by
          rw [hgetj, hpo]
        rcases simLoop_payoff strat (buildSchedMap so) (buildPovMap po) _
            settings.balanceDate 600 1 ⟨initialStates debts, 0, 0, []⟩ months stF
            hnodup0 hloop j pmv hpm with hinit | ⟨hge1, k, hk, hmi, hdg⟩
        · exfalso
          have hinit' : ((initialStates debts).getD j
              default).payoffMonthIndex = some pmv := hinit
          rw [initialStates_getD_payoff debts j] at hinit'
          simp at hinit'
        · have hshape := simLoop_months_shape strat (buildSchedMap so)
            (buildPovMap po) _ settings.balanceDate 600 1
            ⟨initialStates debts, 0, 0, []⟩ months stF hloop k hk
          have hkeq : k = pmv - 1 := by omega
          rw [hsm, hsid, ← hkeq]
          rw [hgetj] at hdg
          exact hdg

/-- The amended balance invariants, checked on the growing-balance
scenario: debt 2's summary reports payoff in month 5, whose record holds
balance 0.00 for it, and every month-5 balance is zero. -/
theorem remaining_balances_amended_witness :
    dget ((growResult).months.getD
        (((growResult).debts.getD 0 default).monthsToPayoff - 1)
          default).remainingBalances ((growResult).debts.getD 0 default).id 0 =
      0 ∧
    (growResult).debts.getD 0 default ∈ (growResult).debts := by
  have hmem : (growResult).debts.getD 0 default ∈ (growResult).debts := by
    decide
  refine ⟨?_, hmem⟩
  exact (remaining_balances_amended settingsGrow debtsGrow [] [] growResult
    (by decide) rfl).2.2 _ hmem

end DebtReduction
